import Mathlib

/-!
# Verification of the vg genotyper core (`src/genotyper.cpp`)

A shallow embedding, in Lean 4, of the parts of `Genotyper` exercised by the
checked claims:

* the allele enumerator `Genotyper::get_paths_through_site`,
* the fast affinity scorer `Genotyper::get_affinities_fast` (and the read
  selection of the slow scorer `Genotyper::get_affinities`),
* the likelihood engine `Genotyper::get_genotype_log_likelihood` and
  `Genotyper::get_genotype_log_prior`,
* the genotype enumeration and sorting of `Genotyper::genotype_site`,
* the variant record emitter `Genotyper::locus_to_variant`.

C++ value types are embedded as follows: node ids (`vg::id_t`) become `ℕ`,
DNA sequences (`std::string`) become `List Char`, `double` values that only
carry probabilities in logarithm space become `ℝ`, and functions that throw,
assert, or hit undefined behaviour are totalized through `Option` (with
`none` for the aborting executions).  Helper functions that live in headers
outside this repository snapshot (`utility.hpp`, `distributions.hpp`) are
modelled from the specification and marked as such in their doc comments.
-/

namespace VGGenotyper

/-! ## Graph primitives (component C1)

`reverse_complement` is the standard DNA reverse complement from
`utility.hpp` (declared in the spec as a C1 primitive; the header is not part
of this snapshot).  Bases outside A/C/G/T map to `N`, which is how vg's
table-driven complement treats unknown characters. -/

/-- Complement of a single base; non-ACGT characters become `N`. -/
def complementBase (c : Char) : Char :=
  if c = 'A' then 'T'
  else if c = 'T' then 'A'
  else if c = 'C' then 'G'
  else if c = 'G' then 'C'
  else 'N'

/-- Modelled from the spec: `reverse_complement(seq)` graph primitive of
component C1 (implemented in `utility.hpp`, which is not under `src/`). -/
def reverse_complement (s : List Char) : List Char :=
  (s.map complementBase).reverse

/-- A `vg::Mapping` restricted to what the genotyper reads from it: the node
id and the strand of `position()`. -/
structure Mapping where
  node_id : ℕ
  is_reverse : Bool
deriving DecidableEq, Repr

instance : Inhabited Mapping := ⟨⟨0, false⟩⟩

/-- A `vg::NodeTraversal`: a node visited in a given strand.  The C++ object
holds a `Node*`; equality compares the node and the `backward` flag, so the
embedding keeps just the id. -/
structure NodeTraversal where
  node : ℕ
  backward : Bool
deriving DecidableEq, Repr

/-- `NodeTraversal::reverse()`: same node, opposite strand. -/
def NodeTraversal.reverse (t : NodeTraversal) : NodeTraversal :=
  ⟨t.node, !t.backward⟩

/-- A `Genotyper::Site`: start and end traversals plus the content id set.
The C++ `set<id_t>` is embedded as a list of ids (only membership is used). -/
structure Site where
  start : NodeTraversal
  end_ : NodeTraversal
  contents : List ℕ
deriving DecidableEq, Repr

/-- The graph, reduced to the single operation the genotyper uses on it:
`graph.get_node(id)->sequence()`. -/
structure VGGraph where
  nodeSeq : ℕ → List Char

/-- `Genotyper::traversals_to_string`: concatenate the oriented node
sequences along a traversal list. -/
def traversals_to_string (g : VGGraph) (path : List NodeTraversal) : List Char :=
  (path.map (fun t => if t.backward then reverse_complement (g.nodeSeq t.node)
                      else g.nodeSeq t.node)).flatten

/-! ## Allele enumerator: `Genotyper::get_paths_through_site` (component C3)

An embedded path is a named list of `Mapping`s.  `traverse_left` /
`traverse_right` move to the previous / next mapping of the path, returning
`nullptr` (here: running off the list) at the ends.  The enumerator walks
from every mapping of the start node of every path that also visits the end
node, and deduplicates completed walks by the sequence they spell. -/

/-- One iteration bound walk of the `while` loop of
`get_paths_through_site` (`genotyper.cpp:478-524`).  Starting from mapping
index `idx` of path `p`, walk in direction `dir` (`true` = left, i.e.
`traverse_left`) until the end node of the site is met in orientation
`eEnd`, accumulating the node traversals and the spelled sequence.  `fuel`
is the number of remaining loop iterations (`max_path_search_steps` minus
the steps already taken); `none` means the walk ended without reaching the
end node (step bound hit or path exhausted), in which case the C++ loop
records nothing. -/
def walk (g : VGGraph) (site : Site) (p : List Mapping) (dir eEnd : Bool) :
    ℕ → ℕ → Option (List NodeTraversal × List Char)
  | _, 0 => none
  | idx, fuel + 1 =>
    match p[idx]? with
    | none => none
    | some m =>
      -- "path_traversed.push_back(NodeTraversal(..., is_reverse != traversal_direction))"
      let trav : NodeTraversal := ⟨m.node_id, xor m.is_reverse dir⟩
      let s := if trav.backward then reverse_complement (g.nodeSeq m.node_id)
               else g.nodeSeq m.node_id
      if m.node_id = site.end_.node ∧ m.is_reverse = eEnd then
        some ([trav], s)
      else
        match (if dir then (if idx = 0 then none else some (idx - 1)) else some (idx + 1) :
            Option ℕ) with
        | none => none
        | some idx2 =>
          match walk g site p dir eEnd idx2 fuel with
          | none => none
          | some (ts, s2) => some (trav :: ts, s ++ s2)

/-- Run the walk for one start-node mapping occurrence `(p, idx)`, deriving
the walking direction and expected end orientation exactly as
`genotyper.cpp:465-470` does. -/
def occWalk (maxSteps : ℕ) (g : VGGraph) (site : Site) (occ : List Mapping × ℕ) :
    Option (List NodeTraversal × List Char) :=
  match occ.1[occ.2]? with
  | none => none
  | some m =>
    let dir := xor m.is_reverse site.start.backward
    let eEnd := xor site.end_.backward dir
    walk g site occ.1 dir eEnd occ.2 maxSteps

/-- Does the path visit the given node (in any orientation)?  This embeds
`graph.paths.has_node_mapping` / the per-name check against
`endmappings_by_name`. -/
def pathVisits (node : ℕ) (p : List Mapping) : Bool :=
  p.any (fun m => m.node_id = node)

/-- Indices of the mappings of `p` that sit on the start node of the site
(in any orientation), in path order: the occurrences the enumerator starts
a walk from. -/
def startIndices (site : Site) (p : List Mapping) : List ℕ :=
  (List.range p.length).filter (fun i => (p.getD i default).node_id = site.start.node)

/-- All walk start occurrences: for each embedded path that also visits the
end node, each of its mappings on the start node.  The list order is the
iteration order of the C++ loops (paths by name, then mappings in storage
order); the claims quantify over, or permute, this order. -/
def startOccurrences (site : Site) (paths : List (String × List Mapping)) :
    List (List Mapping × ℕ) :=
  (paths.filter (fun np => pathVisits site.end_.node np.2)).flatMap
    (fun np => (startIndices site np.2).map (fun i => (np.2, i)))

/-- Insert a completed walk into the `map<string, pair<list<NodeTraversal>, int>>`
of results: a known sequence only bumps its count (keeping the first
traversal list), a novel sequence is added with count 1.  The C++ `std::map`
is embedded as an association list; the claims only use key lookup and
membership, never the key iteration order. -/
def addResult (rs : List (List Char × List NodeTraversal × ℕ))
    (s : List Char) (ts : List NodeTraversal) :
    List (List Char × List NodeTraversal × ℕ) :=
  match rs with
  | [] => [(s, ts, 1)]
  | (s0, ts0, c0) :: rest =>
    if s0 = s then (s0, ts0, c0 + 1) :: rest
    else (s0, ts0, c0) :: addResult rest s ts

/-- Accumulate the results map over a list of start occurrences. -/
def buildResults (maxSteps : ℕ) (g : VGGraph) (site : Site)
    (occs : List (List Mapping × ℕ)) : List (List Char × List NodeTraversal × ℕ) :=
  occs.foldl
    (fun rs occ =>
      match occWalk maxSteps g site occ with
      | none => rs
      | some (ts, s) => addResult rs s ts) []

/-- `Genotyper::get_paths_through_site`: walk from every start occurrence,
deduplicate by spelled sequence, and emit the traversal lists whose
occurrence count reaches `min_recurrence` (`genotyper.cpp:424-554`). -/
def get_paths_through_site (maxSteps minRec : ℕ) (g : VGGraph) (site : Site)
    (paths : List (String × List Mapping)) : List (List NodeTraversal) :=
  ((buildResults maxSteps g site (startOccurrences site paths)).filter
    (fun e => minRec ≤ e.2.2)).map (fun e => e.2.1)

/-- Number of start occurrences whose walk completes spelling exactly `s`:
the recurrence count the enumerator compares against `min_recurrence`. -/
def walkCount (maxSteps : ℕ) (g : VGGraph) (site : Site)
    (occs : List (List Mapping × ℕ)) (s : List Char) : ℕ :=
  ((occs.filterMap (occWalk maxSteps g site)).filter (fun r => r.2 = s)).length

/-- The traversal list of the first completed walk spelling `s`; the results
map stores this one for the sequence `s`. -/
def firstWalk (maxSteps : ℕ) (g : VGGraph) (site : Site)
    (occs : List (List Mapping × ℕ)) (s : List Char) : Option (List NodeTraversal) :=
  ((occs.filterMap (occWalk maxSteps g site)).find? (fun r => r.2 = s)).map (fun r => r.1)

/-- The sequences spelled by the emitted alleles. -/
def emittedSeqs (maxSteps minRec : ℕ) (g : VGGraph) (site : Site)
    (occs : List (List Mapping × ℕ)) : List (List Char) :=
  ((buildResults maxSteps g site occs).filter (fun e => minRec ≤ e.2.2)).map (fun e => e.1)

/-- Entry lookup in the embedded `std::map` of walk results. -/
def resLookup (rs : List (List Char × List NodeTraversal × ℕ)) (s : List Char) :
    Option (List NodeTraversal × ℕ) :=
  (rs.find? (fun e => e.1 = s)).map (fun e => e.2)

/-- The keys of the results map. -/
def resKeys (rs : List (List Char × List NodeTraversal × ℕ)) : List (List Char) :=
  rs.map (fun e => e.1)

/-- One step of the results fold, at the level of completed walks. -/
def resStep (rs : List (List Char × List NodeTraversal × ℕ))
    (r : List NodeTraversal × List Char) : List (List Char × List NodeTraversal × ℕ) :=
  addResult rs r.2 r.1

/-! ## Fast affinity scorer: `Genotyper::get_affinities_fast` (component C4)

The scorer restricts each relevant read to the nodes of the site,
canonicalizes the orientation of that sub-traversal, and compares the
spelled sequence with each candidate allele sequence by exact match, prefix
or suffix, depending on how the read anchors at the site ends
(`genotyper.cpp:755-863`). -/

/-- A `Genotyper::Affinity` as used by the fast path.  The struct lives in
`genotyper.hpp` (not part of this snapshot); per the spec it carries a
consistency flag, an orientation flag and a weight in `[0,1]`, and the
default-constructed record used at `genotyper.cpp:796` is all-false with
weight 0.  The C++ `double` weight only ever takes the values 0.0 and 1.0
here, so it is embedded as `ℚ`. -/
structure Affinity where
  consistent : Bool
  is_reverse : Bool
  affinity : ℚ
deriving DecidableEq, Repr

/-- `Genotyper::get_traversal_of_site`: the read's path restricted to the
mappings whose node lies in `site.contents`, as `NodeTraversal`s
(`genotyper.cpp:728-744`). -/
def get_traversal_of_site (g : VGGraph) (site : Site) (p : List Mapping) :
    List NodeTraversal :=
  (p.filter (fun m => m.node_id ∈ site.contents)).map
    (fun m => ⟨m.node_id, m.is_reverse⟩)

/-- Orientation canonicalization of `genotyper.cpp:801-811`: if the
sub-traversal starts at the reversed end or ends at the reversed start, the
read went through the site backward, so reverse the element order, flip
every element, and record `is_reverse = true`.  (On an empty sub-traversal
the C++ `front()`/`back()` calls would be undefined; the scorer only reaches
this point for reads that touch the site, so the embedding's `head?`/
`getLast?` comparisons failing on `[]` is unobservable.) -/
def canonicalize (site : Site) (rt : List NodeTraversal) :
    List NodeTraversal × Bool :=
  if rt.head? = some site.end_.reverse ∨ rt.getLast? = some site.start.reverse then
    (rt.reverse.map NodeTraversal.reverse, true)
  else (rt, false)

/-- The canonicalized site traversal of a read. -/
def readSiteTraversal (g : VGGraph) (site : Site) (p : List Mapping) :
    List NodeTraversal :=
  (canonicalize site (get_traversal_of_site g site p)).1

/-- The `is_reverse` flag produced by canonicalizing the read's site
traversal: the one flag shared by all of the read's affinities. -/
def readSiteIsRev (g : VGGraph) (site : Site) (p : List Mapping) : Bool :=
  (canonicalize site (get_traversal_of_site g site p)).2

/-- The site-restricted sequence `seq` the read spells
(`genotyper.cpp:816`). -/
def readSiteSeq (g : VGGraph) (site : Site) (p : List Mapping) : List Char :=
  traversals_to_string g (readSiteTraversal g site p)

/-- The prefix test of `genotyper.cpp:829-831`:
`std::mismatch(seq.begin(), seq.end(), path_seq.begin())` stops at the first
differing position, and the scorer checks that it ran to `seq.end()`.
(When `seq` is longer than `path_seq` the C++ call reads past the end of
`path_seq` — undefined behaviour; the embedding totalizes that case to
`false`, i.e. not a prefix.) -/
def mismatchToEnd : List Char → List Char → Bool
  | [], _ => true
  | _ :: _, [] => false
  | a :: s, b :: t => a == b && mismatchToEnd s t

/-- Score one read against one allele sequence (`genotyper.cpp:819-849`):
exact match if the canonical traversal is anchored at both site ends, prefix
if anchored at the start only, suffix (a prefix of the reversals) if
anchored at the end only; otherwise the default-constructed affinity is kept
(the C++ code logs a warning and leaves `consistent` false).  The weight is
`(double)affinity.consistent`. -/
def score_against (site : Site) (rt : List NodeTraversal) (isRev : Bool)
    (seq pathSeq : List Char) : Affinity :=
  let cons : Bool :=
    if rt.head? = some site.start ∧ rt.getLast? = some site.end_ then seq == pathSeq
    else if rt.head? = some site.start then mismatchToEnd seq pathSeq
    else if rt.getLast? = some site.end_ then
      mismatchToEnd seq.reverse pathSeq.reverse
    else false
  ⟨cons, isRev, if cons then 1 else 0⟩

/-- All affinities of one read: one `push_back` per allele string, in allele
order, all sharing the read's canonicalization data. -/
def score_read (g : VGGraph) (site : Site) (alleleStrings : List (List Char))
    (p : List Mapping) : List Affinity :=
  alleleStrings.map
    (score_against site (readSiteTraversal g site p) (readSiteIsRev g site p)
      (readSiteSeq g site p))

/-- Is the read relevant to the site, i.e. does it map to some node of
`site.contents` (`genotyper.cpp:778-789`)? -/
def relevant_read (site : Site) (p : List Mapping) : Bool :=
  p.any (fun m => m.node_id ∈ site.contents)

/-- `Genotyper::get_affinities_fast`, as the association of read names to
affinity vectors.  The C++ result map is keyed by `Alignment*` and only
receives entries through `push_back` inside the per-allele loop, hence the
guard: with no alleles no read ever enters the map.  `reads` carries each
alignment as `(name, path)`; `reads_by_name` in the C++ is keyed by the
unique names. -/
def get_affinities_fast (g : VGGraph) (site : Site)
    (alleles : List (List NodeTraversal)) (reads : List (String × List Mapping)) :
    List (String × List Affinity) :=
  let alleleStrings := alleles.map (traversals_to_string g)
  if alleleStrings.isEmpty then []
  else
    (reads.filter (fun r => relevant_read site r.2)).map
      (fun r => (r.1, score_read g site alleleStrings r.2))

/-- The informative-read test of the slow scorer `Genotyper::get_affinities`
(`genotyper.cpp:658-689`): the set of site nodes the read touches must
either have size at least 2, or still be non-empty after removing the start
and end nodes (i.e. the read touches an internal node). -/
def informative_read (site : Site) (p : List Mapping) : Bool :=
  let touched :=
    ((p.filter (fun m => m.node_id ∈ site.contents)).map (fun m => m.node_id)).dedup
  decide (2 ≤ touched.length) ||
    !((touched.erase site.start.node).erase site.end_.node).isEmpty

/-- The set of read names that receive affinities from the slow scorer
`Genotyper::get_affinities`: the relevant reads that pass the informative
test.  (The affinity values of the slow path come from re-aligning the read
to a per-allele graph with the external `VG::align`, which is outside this
repository; only the read selection is embedded.) -/
def get_affinities_reads (site : Site) (alleles : List (List NodeTraversal))
    (reads : List (String × List Mapping)) : List String :=
  if alleles.isEmpty then []
  else
    (reads.filter (fun r => relevant_read site r.2 && informative_read site r.2)).map
      (fun r => r.1)

/-! ## Likelihood engine: `Genotyper::get_genotype_log_likelihood` (component C5)

Log-probabilities are `double`s in the C++; they are embedded as `ℝ`.  The
Phred/log-probability helpers live in `utility.hpp` and the multinomial PMF
in `distributions.hpp`, neither of which is part of this snapshot; they are
modelled from the spec (`Phred` glossary entry and the strand-balance
paragraph) and marked so. -/

/-- The parts of a `vg::Alignment` the likelihood engine reads: base
qualities (empty means absent) and the mapping quality. -/
structure AlignmentQ where
  quality : List ℕ
  mapping_quality : ℕ
deriving DecidableEq, Repr

/-- `Genotyper::alignment_qual_score` (`genotyper.cpp:303-326`): the default
quality when no base qualities are present, otherwise the rounded mean base
quality.  (C++ `round` rounds half away from zero; for the non-negative
values here that agrees with Mathlib's `round`.) -/
def alignment_qual_score (default_sequence_quality : ℤ) (al : AlignmentQ) : ℤ :=
  if al.quality = [] then default_sequence_quality
  else round ((al.quality.sum : ℚ) / (al.quality.length : ℚ))

/-- Modelled from the spec: `phred_to_logprob` of `utility.hpp` (not under
`src/`).  Phred `q` encodes probability `10^(-q/10)`, so its natural log is
`-(q/10)·ln 10`. -/
noncomputable def phred_to_logprob (q : ℝ) : ℝ := -(q / 10) * Real.log 10

/-- Modelled from the spec: `phred_to_prob` of `utility.hpp` (not under
`src/`), the probability `10^(-q/10)` encoded by Phred value `q`. -/
noncomputable def phred_to_prob (q : ℝ) : ℝ := Real.exp (phred_to_logprob q)

/-- Modelled from the spec: `prob_to_logprob` of `utility.hpp` (not under
`src/`): natural log. -/
noncomputable def prob_to_logprob (p : ℝ) : ℝ := Real.log p

/-- Modelled from the spec: `logprob_invert` of `utility.hpp` (not under
`src/`): `log(1 - exp lp)`, the log-probability of the complement. -/
noncomputable def logprob_invert (lp : ℝ) : ℝ := Real.log (1 - Real.exp lp)

/-- Modelled from the spec: `logprob_to_phred` of `utility.hpp` (not under
`src/`): `-10·log₁₀`, i.e. `-10·lp/ln 10`. -/
noncomputable def logprob_to_phred (lp : ℝ) : ℝ := -10 * (lp / Real.log 10)

/-- `consistency.at(allele).consistent` of `genotyper.cpp:910`.  The C++
`.at` throws when the allele index is out of range; by C10 the genotyper
only looks up indices below the affinity vector length, so the embedding
totalizes out-of-range lookups to a default (inconsistent) affinity. -/
def countConsistent (c : List Affinity) (a : ℕ) : Bool :=
  (c.getD a ⟨false, false, 0⟩).consistent

/-- `consistency.at(allele).is_reverse` of `genotyper.cpp:914`, totalized
like `countConsistent`. -/
def affIsRev (c : List Affinity) (a : ℕ) : Bool :=
  (c.getD a ⟨false, false, 0⟩).is_reverse

/-- `consistent_alleles` of `genotyper.cpp:908-922`: the number of entries
of the genotype *vector* (with multiplicity) whose allele the read is
consistent with. -/
def consistentAlleles (genotype : List ℕ) (c : List Affinity) : ℕ :=
  (genotype.filter (fun a => countConsistent c a)).length

/-- The `logprob_wrong` of a read inconsistent with both genotype alleles
(`genotyper.cpp:936-944`). -/
noncomputable def readWrongContribution (use_mapq : Bool)
    (default_sequence_quality : ℤ) (al : AlignmentQ) : ℝ :=
  if use_mapq then
    logprob_invert (logprob_invert (phred_to_logprob (al.mapping_quality : ℝ)) +
      logprob_invert (phred_to_logprob
        ((alignment_qual_score default_sequence_quality al : ℤ) : ℝ)))
  else phred_to_logprob ((alignment_qual_score default_sequence_quality al : ℤ) : ℝ)

/-- The `logprob_drawn` of a read consistent with at least one genotype
allele (`genotyper.cpp:957`): `log(consistent_alleles / genotype.size())`,
with `consistent_alleles` counted over the genotype vector with
multiplicity. -/
noncomputable def readDrawnContribution (genotype : List ℕ) (c : List Affinity) : ℝ :=
  prob_to_logprob ((consistentAlleles genotype c : ℝ) / (genotype.length : ℝ))

/-- One read's contribution to the genotype log-likelihood
(`genotyper.cpp:931-964`). -/
noncomputable def readContribution (use_mapq : Bool) (default_sequence_quality : ℤ)
    (genotype : List ℕ) (r : AlignmentQ × List Affinity) : ℝ :=
  if consistentAlleles genotype r.2 = 0 then
    readWrongContribution use_mapq default_sequence_quality r.1
  else readDrawnContribution genotype r.2

/-- One increment of a `pair<int,int>` strand counter
(`genotyper.cpp:914-920`): bump reverse or forward. -/
def strandBump (v : ℕ × ℕ) (rev : Bool) : ℕ × ℕ :=
  if rev then (v.1, v.2 + 1) else (v.1 + 1, v.2)

/-- Point update of the embedded `map<int, pair<int,int>>` (total function
with default `(0,0)`, matching `operator[]` value-initialization). -/
def updateFun (m : ℕ → ℕ × ℕ) (a : ℕ) (v : ℕ × ℕ) : ℕ → ℕ × ℕ :=
  fun x => if x = a then v else m x

/-- The per-read inner loop over the genotype vector
(`genotyper.cpp:909-922`): for each genotype entry (with multiplicity) the
read is consistent with, bump that allele's strand counter in the read's
orientation. -/
def readStrandUpdate (c : List Affinity) (genotype : List ℕ) (m : ℕ → ℕ × ℕ) :
    ℕ → ℕ × ℕ :=
  genotype.foldl
    (fun m a =>
      if countConsistent c a then updateFun m a (strandBump (m a) (affIsRev c a))
      else m) m

/-- `strand_count_by_allele_and_orientation` after all reads
(`genotyper.cpp:898-922`). -/
def strandCountsMap (genotype : List ℕ) (reads : List (AlignmentQ × List Affinity)) :
    ℕ → ℕ × ℕ :=
  reads.foldl (fun m r => readStrandUpdate r.2 genotype m) (fun _ => (0, 0))

/-- Modelled from the spec: `multinomial_sampling_prob_ln` of
`distributions.hpp` (not under `src/`), specialized to the two categories
and uniform probabilities `(0.5, 0.5)` it is called with
(`genotyper.cpp:972-987`): the log multinomial PMF
`log(C(f+r, f) · (1/2)^(f+r))`. -/
noncomputable def multinomial_sampling_prob_ln (f r : ℕ) : ℝ :=
  Real.log ((Nat.choose (f + r) f : ℝ) * (1 / 2) ^ (f + r))

/-- `strands_as_specified` (`genotyper.cpp:970-995`): one multinomial term
per key present in the strand-count map.  A key is present iff its counter
was ever bumped, i.e. iff its value is not `(0,0)`; keys are the distinct
alleles of the genotype vector, and the (key-sorted) iteration order is
irrelevant to the sum. -/
noncomputable def strandTerm (genotype : List ℕ)
    (reads : List (AlignmentQ × List Affinity)) : ℝ :=
  (genotype.dedup.map (fun a =>
    if strandCountsMap genotype reads a = (0, 0) then 0
    else multinomial_sampling_prob_ln (strandCountsMap genotype reads a).1
      (strandCountsMap genotype reads a).2)).sum

/-- `Genotyper::get_genotype_log_likelihood` (`genotyper.cpp:865-1003`):
the two read-contribution accumulators (both starting at `log 1 = 0`) sum
to the sum of per-read contributions, plus the strand-balance term. -/
noncomputable def get_genotype_log_likelihood (use_mapq : Bool)
    (default_sequence_quality : ℤ) (genotype : List ℕ)
    (reads : List (AlignmentQ × List Affinity)) : ℝ :=
  (reads.map (readContribution use_mapq default_sequence_quality genotype)).sum +
    strandTerm genotype reads

/-- `Genotyper::get_genotype_log_prior` (`genotyper.cpp:1005-1017`). -/
noncomputable def get_genotype_log_prior (het_prior_logprob : ℝ)
    (genotype : List ℕ) : ℝ :=
  if genotype.getD 0 0 ≠ genotype.getD 1 0 then het_prior_logprob
  else logprob_invert het_prior_logprob

/-- Reads consistent with allele `x` in forward orientation. -/
def fwdSupport (reads : List (AlignmentQ × List Affinity)) (x : ℕ) : ℕ :=
  (reads.filter (fun r => countConsistent r.2 x && !affIsRev r.2 x)).length

/-- Reads consistent with allele `x` in reverse orientation. -/
def revSupport (reads : List (AlignmentQ × List Affinity)) (x : ℕ) : ℕ :=
  (reads.filter (fun r => countConsistent r.2 x && affIsRev r.2 x)).length

/-! ## Genotype enumeration and sorting in `Genotyper::genotype_site`
(component C5, `genotyper.cpp:1196-1258`) -/

/-- One entry of `genotypes_sorted`: the two allele indices and the three
log-scores of a `Genotype` protobuf object. -/
structure GenotypeE (α : Type) where
  allele1 : ℕ
  allele2 : ℕ
  log_likelihood : α
  log_prior : α
  log_posterior : α
deriving DecidableEq, Repr

/-- The unordered allele pairs in the enumeration order of the two nested
loops of `genotyper.cpp:1200-1206`: all `(allele1, allele2)` with
`allele2 ≤ allele1 < n`. -/
def genotype_pairs (n : ℕ) : List (ℕ × ℕ) :=
  (List.range n).flatMap (fun a1 => (List.range (a1 + 1)).map (fun a2 => (a1, a2)))

/-- The sort relation of `genotyper.cpp:1243-1245`: descending
`log_posterior`. -/
def postGE {α : Type} [LinearOrder α] (a b : GenotypeE α) : Prop :=
  b.log_posterior ≤ a.log_posterior

instance {α : Type} [LinearOrder α] : DecidableRel (@postGE α _) :=
  fun a b => inferInstanceAs (Decidable (_ ≤ _))

instance {α : Type} [LinearOrder α] : IsTotal (GenotypeE α) postGE :=
  ⟨fun a b => le_total b.log_posterior a.log_posterior⟩

instance {α : Type} [LinearOrder α] : IsTrans (GenotypeE α) postGE :=
  ⟨fun _ _ _ hab hbc => le_trans hbc hab⟩

/-- The genotype list built and sorted by `genotype_site`
(`genotyper.cpp:1196-1258`), generic in the ordered score type: one
genotype per unordered allele pair, with
`log_posterior = log_likelihood + log_prior`, sorted by descending
posterior.  (C++ `std::sort` with the strict comparator produces some
non-increasing permutation; insertion sort is one such.) -/
def genotypes_sorted (α : Type) [LinearOrder α] [Add α] (n : ℕ)
    (ll prior : ℕ → ℕ → α) : List (GenotypeE α) :=
  List.insertionSort postGE ((genotype_pairs n).map
    (fun pr => ⟨pr.1, pr.2, ll pr.1 pr.2, prior pr.1 pr.2,
      ll pr.1 pr.2 + prior pr.1 pr.2⟩))

/-- The genotype list of `genotype_site` with the scores actually computed
by the genotyper: likelihoods from `get_genotype_log_likelihood` on the
genotype vector `{allele1, allele2}` and priors from
`get_genotype_log_prior`. -/
noncomputable def genotype_site_genotypes (use_mapq : Bool)
    (default_sequence_quality : ℤ) (het_prior_logprob : ℝ) (n : ℕ)
    (reads : List (AlignmentQ × List Affinity)) : List (GenotypeE ℝ) :=
  genotypes_sorted ℝ n
    (fun a1 a2 => get_genotype_log_likelihood use_mapq default_sequence_quality
      [a1, a2] reads)
    (fun a1 a2 => get_genotype_log_prior het_prior_logprob [a1, a2])

/-! ## Variant record emitter: `Genotyper::locus_to_variant` (component C6,
`genotyper.cpp:1372-1553`)

Throwing (`runtime_error`), failing an `assert`, and undefined behaviour
(`vector::operator[]` out of range, `substr` past the end, `size_t`
underflow of `referenceIntervalStart - 1`) are all totalized to `none`. -/

/-- A `Genotype` protobuf entry of a `Locus`: allele indices,
log-likelihood, phasing flag. -/
structure GenotypeCall where
  alleles : List ℕ
  log_likelihood : ℝ
  is_phased : Bool

/-- The parts of a `Locus` protobuf the emitter reads. -/
structure LocusE where
  alleles : List (List Mapping)
  supports : List (ℕ × ℕ)
  genotypes : List GenotypeCall
  overall : ℕ × ℕ

/-- The `ReferenceIndex` as consumed by `locus_to_variant`: `byId` maps a
node id to the offset and orientation of its first reference visit, `seq`
is the linear reference sequence. -/
structure RefIndexE where
  byId : List (ℕ × ℕ × Bool)
  seq : List Char

/-- `index.byId.count`/`index.byId.at`, as association-list lookup. -/
def idxLookup (ix : RefIndexE) (id : ℕ) : Option (ℕ × Bool) :=
  (ix.byId.find? (fun e => e.1 = id)).map (fun e => e.2)

/-- `allele_to_string` (`genotyper.cpp:285-301`): drop the first and last
mapping of the allele path and concatenate the oriented node sequences of
the rest.  (For a path with fewer than one mapping the C++ loop bound
underflows — undefined behaviour; the emitter checks only the first allele
for emptiness.) -/
def allele_to_string (g : VGGraph) (p : List Mapping) : List Char :=
  ((p.drop 1).dropLast.map (fun m =>
    if m.is_reverse then reverse_complement (g.nodeSeq m.node_id)
    else g.nodeSeq m.node_id)).flatten

/-- Base normalization of `create_ref_allele`/`add_alt_allele`
(`genotyper.cpp:1279-1285, 1306-1311`): anything outside ACGT becomes N. -/
def normalizeBases (s : List Char) : List Char :=
  s.map (fun c => if c = 'A' ∨ c = 'C' ∨ c = 'G' ∨ c = 'T' then c else 'N')

/-- `add_alt_allele` (`genotyper.cpp:1302-1330`): normalize, return the
index of an existing equal allele, else append to the alt list and the
alleles-by-index list and return the new index. -/
def add_alt_allele (alleles alts : List (List Char)) (al : List Char) :
    List (List Char) × List (List Char) × ℕ :=
  let fixed := normalizeBases al
  match alleles.findIdx? (fun x => x == fixed) with
  | some i => (alleles, alts, i)
  | none => (alleles ++ [fixed], alts ++ [fixed], alleles.length)

/-- State of the per-allele loop of `genotyper.cpp:1465-1485`:
alleles-by-index, alt list, `allele_to_alt`, `max_alt_number`,
`support_by_alt`. -/
abbrev AlleleState :=
  List (List Char) × List (List Char) × List ℕ × ℕ × List (ℕ × ℕ)

/-- One iteration of the per-allele loop (`genotyper.cpp:1465-1485`). -/
def alleleFold (supports : List (ℕ × ℕ)) (st : AlleleState)
    (ia : ℕ × List Char) : AlleleState :=
  let r := add_alt_allele st.1 st.2.1 ia.2
  let altNum := r.2.2
  let supByAlt :=
    if ia.1 < supports.length then
      (st.2.2.2.2 ++ List.replicate (altNum + 1 - st.2.2.2.2.length) (0, 0)).set altNum
        (supports.getD ia.1 (0, 0))
    else st.2.2.2.2
  (r.1, r.2.1, st.2.2.1 ++ [altNum], max st.2.2.2.1 altNum, supByAlt)

/-- One iteration of the PL loop (`genotyper.cpp:1517-1538`): assert the
genotype is diploid, translate both alleles through `allele_to_alt` (a
throwing `.at`), and store the log-likelihood at the VCF-order index. -/
def plFold (a2a : List ℕ) (sz : ℕ) (st : Option (List (Option ℝ)))
    (gt : GenotypeCall) : Option (List (Option ℝ)) :=
  match st with
  | none => none
  | some v =>
    if gt.alleles.length = 2 then
      match a2a[gt.alleles.getD 0 0]?, a2a[gt.alleles.getD 1 0]? with
      | some lowA, some highA =>
        -- "if(low_alt > high_alt) swap(low_alt, high_alt);"
        let lo := if highA < lowA then highA else lowA
        let hi := if highA < lowA then lowA else highA
        let idx := hi * (hi + 1) / 2 + lo
        if idx < sz then some (v.set idx (some gt.log_likelihood)) else none
      | _, _ => none
    else none

/-- The variant record, restricted to the fields the emitter fills:
1-based position, normalized ref allele, alt alleles, the two GT alt
numbers with the phasing separator, `DP`, `AD`, and `PL` (with `none` for
the `infinity` placeholders of impossible genotypes). -/
structure VariantE where
  position : ℕ
  ref : List Char
  alts : List (List Char)
  gt0 : ℕ
  gt1 : ℕ
  phased : Bool
  dp : ℕ
  ad : List ℕ
  pl : List (Option ℝ)

/-- `Genotyper::locus_to_variant` (`genotyper.cpp:1372-1553`). -/
noncomputable def locus_to_variant (g : VGGraph) (site : Site) (ix : RefIndexE)
    (locus : LocusE) : Option (List VariantE) :=
  if locus.alleles = [] then none
  else if (locus.alleles.headD []).length = 0 then none
  else
    match idxLookup ix site.start.node, idxLookup ix site.end_.node with
    | some sref, some eref =>
      let refStart := sref.1 + (g.nodeSeq site.start.node).length
      let refPastEnd := eref.1
      if refStart ≤ refPastEnd then
        if refStart ≤ ix.seq.length then
          let refString := (ix.seq.drop refStart).take (refPastEnd - refStart)
          let alleleStrings := locus.alleles.map (allele_to_string g)
          let needAnchor := refString.isEmpty || alleleStrings.any (fun a => a.isEmpty)
          if needAnchor && decide (refStart = 0) then none
          else
            let anchor := if needAnchor then (ix.seq.drop (refStart - 1)).take 1 else []
            let refString2 := anchor ++ refString
            let alleleStrings2 := alleleStrings.map (fun a => anchor ++ a)
            let position := (if needAnchor then refStart - 1 else refStart) + 1
            let st := alleleStrings2.enum.foldl (alleleFold locus.supports)
              ([refString2], [], [], 0, [])
            match locus.genotypes with
            | [] => none
            | best :: _ =>
              if best.alleles.length = 2 then
                match st.2.2.1[best.alleles.getD 0 0]?, st.2.2.1[best.alleles.getD 1 0]? with
                | some g0, some g1 =>
                  let sz := st.2.2.2.1 * (st.2.2.2.1 + 1) / 2 + st.2.2.2.1 + 1
                  match locus.genotypes.foldl (plFold st.2.2.1 sz)
                      (some (List.replicate sz none)) with
                  | none => none
                  | some plv =>
                    some [⟨position, normalizeBases refString2, st.2.1, g0, g1,
                      best.is_phased, locus.overall.1 + locus.overall.2,
                      st.2.2.2.2.map (fun s => s.1 + s.2),
                      plv.map (Option.map
                        (fun l => logprob_to_phred (l - best.log_likelihood)))⟩]
                | _, _ => none
              else none
        else none
      else none
    | _, _ => some []

/-! ### Concrete data used by witnesses and counterexamples

A four node graph `1:"G"  2:"A"  3:"A"  4:"C"` with a site from node 1 to
node 4; two embedded paths realize traversals `1,2,4` and `1,3,4`, which
spell the same sequence `GAC` because nodes 2 and 3 carry the same base. -/

/-- Example graph: nodes 1, 2, 3, 4 with sequences G, A, A, C. -/
def exGraph : VGGraph :=
  ⟨fun id =>
    if id = 1 then ['G']
    else if id = 2 then ['A']
    else if id = 3 then ['A']
    else if id = 4 then ['C']
    else []⟩

/-- Example site from node 1 (forward) to node 4 (forward). -/
def exSite : Site := ⟨⟨1, false⟩, ⟨4, false⟩, [1, 2, 3, 4]⟩

/-- Example path through node 2. -/
def exPathA : List Mapping := [⟨1, false⟩, ⟨2, false⟩, ⟨4, false⟩]

/-- Example path through node 3 (spells the same sequence as `exPathA`). -/
def exPathB : List Mapping := [⟨1, false⟩, ⟨3, false⟩, ⟨4, false⟩]

/-- Example allele `1,2,4` for the scorer claims. -/
def exAllele : List NodeTraversal := [⟨1, false⟩, ⟨2, false⟩, ⟨4, false⟩]

/-- Example read mapping only to the start node of `exSite`. -/
def exRead : List Mapping := [⟨1, false⟩]

/-- A consistent forward affinity. -/
def exAffF : Affinity := ⟨true, false, 1⟩

/-- A consistent reverse affinity. -/
def exAffR : Affinity := ⟨true, true, 1⟩

/-- An alignment with base qualities 30, 30 and mapping quality 60. -/
def exAlq : AlignmentQ := ⟨[30, 30], 60⟩

/-- An alignment with no base qualities and mapping quality 60. -/
def exAlq0 : AlignmentQ := ⟨[], 60⟩

/-- A well-formed one-allele, one-genotype locus over `exAllele`. -/
def exLocusGood : LocusE :=
  ⟨[[⟨1, false⟩, ⟨2, false⟩, ⟨4, false⟩]], [(1, 0)], [⟨[0, 0], 0, false⟩], (1, 0)⟩

/-- A reference index placing both site endpoints on the reference but in
inverted order (start offset 5, end offset 2), as for a site running
backward along the reference. -/
def exIxInverted : RefIndexE :=
  ⟨[(1, 5, false), (4, 2, false)], ['G', 'A', 'A', 'C', 'G', 'G', 'A', 'A']⟩

/-- A reference index with both endpoints on the reference in order. -/
def exIxGood : RefIndexE := ⟨[(1, 0, false), (4, 3, false)], ['G', 'A', 'A', 'C']⟩

/-- A reference index missing the end node of the site. -/
def exIxOff : RefIndexE := ⟨[(1, 0, false)], ['G', 'A', 'A', 'C']⟩

/-! ### Lemmas about the enumerator -/

theorem bxor_cancel_left (a b : Bool) : xor a (xor a b) = b := by
  cases a <;> cases b <;> rfl

theorem bxor_cancel_right (a b : Bool) : xor (xor b a) a = b := by
  cases a <;> cases b <;> rfl

/-- Every successful walk starts at the mapping it was launched from (in the
orientation induced by the walking direction) and ends at the end node of
the site in the expected orientation. -/
theorem walk_spec (g : VGGraph) (site : Site) (p : List Mapping) (dir eEnd : Bool) :
    ∀ (fuel idx : ℕ) (ts : List NodeTraversal) (s : List Char),
      walk g site p dir eEnd idx fuel = some (ts, s) →
      (∃ m, p[idx]? = some m ∧ ts.head? = some ⟨m.node_id, xor m.is_reverse dir⟩) ∧
        ts.getLast? = some ⟨site.end_.node, xor eEnd dir⟩
  | 0, idx, ts, s => by simp [walk]
  | fuel + 1, idx, ts, s => by
    intro h
    simp only [walk] at h
    split at h
    · exact absurd h (by simp)
    · next m hidx =>
      split at h
      · next hend =>
        cases h
        refine ⟨⟨m, hidx, rfl⟩, ?_⟩
        simp [hend.1, hend.2]
      · next hend =>
        split at h
        · exact absurd h (by simp)
        · next idx2 hnext =>
          split at h
          · exact absurd h (by simp)
          · next ts' s' hrec =>
            cases h
            obtain ⟨⟨m', _, hhead⟩, hlast⟩ :=
              walk_spec g site p dir eEnd fuel idx2 ts' s' hrec
            refine ⟨⟨m, hidx, rfl⟩, ?_⟩
            cases ts' with
            | nil => simp at hhead
            | cons a l => simpa using hlast

/-- Every start occurrence produced by `startOccurrences` is a genuine
mapping of its path sitting on the start node of the site. -/
theorem startOccurrences_spec (site : Site) (paths : List (String × List Mapping)) :
    ∀ occ ∈ startOccurrences site paths,
      ∃ m, occ.1[occ.2]? = some m ∧ m.node_id = site.start.node := by
  intro occ hocc
  simp only [startOccurrences, List.mem_flatMap, List.mem_filter, List.mem_map] at hocc
  obtain ⟨np, ⟨_, _⟩, i, hi, rfl⟩ := hocc
  simp only [startIndices, List.mem_filter, List.mem_range, decide_eq_true_eq] at hi
  refine ⟨np.2.getD i default, ?_, hi.2⟩
  simp [List.getD_eq_getElem?_getD, List.getElem?_eq_getElem hi.1]

/-- A successful walk from a start occurrence is a non-empty traversal list
that begins with `site.start` and ends with `site.end`. -/
theorem occWalk_head_last (maxSteps : ℕ) (g : VGGraph) (site : Site)
    (occ : List Mapping × ℕ) (hocc : ∃ m, occ.1[occ.2]? = some m ∧ m.node_id = site.start.node)
    (ts : List NodeTraversal) (s : List Char)
    (h : occWalk maxSteps g site occ = some (ts, s)) :
    ts ≠ [] ∧ ts.head? = some site.start ∧ ts.getLast? = some site.end_ := by
  obtain ⟨m, hm, hnode⟩ := hocc
  unfold occWalk at h
  rw [hm] at h
  obtain ⟨⟨m', hm', hhead⟩, hlast⟩ := walk_spec g site occ.1 _ _ _ _ _ _ h
  rw [hm] at hm'
  cases hm'
  constructor
  · intro hnil; rw [hnil] at hhead; simp at hhead
  constructor
  · rw [hhead, hnode, bxor_cancel_left]
  · rw [hlast, bxor_cancel_right]

theorem resLookup_nil (s : List Char) : resLookup [] s = none := rfl

theorem resLookup_cons (s0 : List Char) (v0 : List NodeTraversal × ℕ)
    (rest : List (List Char × List NodeTraversal × ℕ)) (s : List Char) :
    resLookup ((s0, v0) :: rest) s = if s0 = s then some v0 else resLookup rest s := by
  by_cases h : s0 = s
  · rw [if_pos h, resLookup, List.find?_cons_of_pos _ (by simpa using h)]
    rfl
  · rw [if_neg h, resLookup, List.find?_cons_of_neg _ (by simpa using h)]
    rfl

theorem addResult_nil (s : List Char) (ts : List NodeTraversal) :
    addResult [] s ts = [(s, ts, 1)] := rfl

theorem addResult_cons (s0 : List Char) (ts0 : List NodeTraversal) (c0 : ℕ)
    (rest : List (List Char × List NodeTraversal × ℕ)) (s : List Char)
    (ts : List NodeTraversal) :
    addResult ((s0, ts0, c0) :: rest) s ts =
      if s0 = s then (s0, ts0, c0 + 1) :: rest
      else (s0, ts0, c0) :: addResult rest s ts := rfl

theorem resLookup_addResult_self (rs : List (List Char × List NodeTraversal × ℕ))
    (s : List Char) (ts : List NodeTraversal) :
    resLookup (addResult rs s ts) s =
      some (match resLookup rs s with
            | none => (ts, 1)
            | some (t, c) => (t, c + 1)) := by
  induction rs with
  | nil => simp [addResult_nil, resLookup_cons, resLookup_nil]
  | cons e rest ih =>
    obtain ⟨s0, ts0, c0⟩ := e
    rw [addResult_cons]
    by_cases h : s0 = s
    · rw [if_pos h, resLookup_cons, if_pos h, resLookup_cons, if_pos h]
    · rw [if_neg h, resLookup_cons, if_neg h, resLookup_cons, if_neg h, ih]

theorem resLookup_addResult_ne (rs : List (List Char × List NodeTraversal × ℕ))
    (s : List Char) (ts : List NodeTraversal) (s' : List Char) (h : s' ≠ s) :
    resLookup (addResult rs s ts) s' = resLookup rs s' := by
  induction rs with
  | nil =>
    rw [addResult_nil, resLookup_cons, if_neg (fun hc => h hc.symm), resLookup_nil]
  | cons e rest ih =>
    obtain ⟨s0, ts0, c0⟩ := e
    rw [addResult_cons]
    by_cases h0 : s0 = s
    · rw [if_pos h0, resLookup_cons, resLookup_cons]
      have : ¬ (s0 = s') := fun hc => h (hc ▸ h0)
      rw [if_neg this, if_neg this]
    · rw [if_neg h0, resLookup_cons, resLookup_cons]
      by_cases h1 : s0 = s'
      · rw [if_pos h1, if_pos h1]
      · rw [if_neg h1, if_neg h1, ih]

theorem resKeys_addResult (rs : List (List Char × List NodeTraversal × ℕ))
    (s : List Char) (ts : List NodeTraversal) :
    resKeys (addResult rs s ts) =
      if s ∈ resKeys rs then resKeys rs else resKeys rs ++ [s] := by
  induction rs with
  | nil => simp [resKeys, addResult_nil]
  | cons e rest ih =>
    obtain ⟨s0, ts0, c0⟩ := e
    rw [addResult_cons]
    by_cases h : s0 = s
    · subst h
      simp [resKeys]
    · rw [if_neg h]
      simp only [resKeys, List.map_cons] at ih ⊢
      rw [ih]
      have hmemiff : (s ∈ s0 :: rest.map (fun e => e.1)) ↔ (s ∈ rest.map (fun e => e.1)) := by
        simp [Ne.symm h]
      by_cases hmem : s ∈ rest.map (fun e => e.1)
      · simp [hmem, hmemiff.mpr hmem]
      · rw [if_neg hmem, if_neg (hmemiff.not.mpr hmem)]
        simp

theorem nodup_resKeys_addResult (rs : List (List Char × List NodeTraversal × ℕ))
    (s : List Char) (ts : List NodeTraversal) (h : (resKeys rs).Nodup) :
    (resKeys (addResult rs s ts)).Nodup := by
  rw [resKeys_addResult]
  split
  · exact h
  · next hs => simp [List.nodup_append, h, hs]

/-- Membership in the results map coincides with lookup as soon as the keys
are distinct (which `addResult` maintains). -/
theorem mem_iff_resLookup (rs : List (List Char × List NodeTraversal × ℕ))
    (h : (resKeys rs).Nodup) (e : List Char × List NodeTraversal × ℕ) :
    e ∈ rs ↔ resLookup rs e.1 = some e.2 := by
  induction rs with
  | nil => simp [resLookup_nil]
  | cons e0 rest ih =>
    obtain ⟨s0, v0⟩ := e0
    simp only [resKeys, List.map_cons, List.nodup_cons] at h
    rw [resLookup_cons]
    by_cases hkey : s0 = e.1
    · rw [if_pos hkey]
      simp only [Option.some.injEq, List.mem_cons]
      constructor
      · rintro (rfl | hmem)
        · rfl
        · exfalso
          exact h.1 (hkey ▸ (List.mem_map.mpr ⟨e, hmem, rfl⟩))
      · intro hv
        left
        have he : e = (e.1, e.2) := rfl
        rw [he, ← hkey, ← hv]
    · rw [if_neg hkey]
      rw [List.mem_cons]
      constructor
      · rintro (rfl | hmem)
        · exact absurd rfl hkey
        · exact (ih h.2).mp hmem
      · intro hv
        right
        exact (ih h.2).mpr hv

theorem buildResults_eq_foldl (maxSteps : ℕ) (g : VGGraph) (site : Site) :
    ∀ (occs : List (List Mapping × ℕ)) (rs : List (List Char × List NodeTraversal × ℕ)),
      occs.foldl
        (fun rs occ =>
          match occWalk maxSteps g site occ with
          | none => rs
          | some (ts, s) => addResult rs s ts) rs =
      ((occs.filterMap (occWalk maxSteps g site)).foldl resStep rs)
  | [], rs => rfl
  | occ :: occs, rs => by
    rw [List.foldl_cons, List.filterMap_cons]
    match h : occWalk maxSteps g site occ with
    | none => exact buildResults_eq_foldl maxSteps g site occs rs
    | some (ts, s) =>
      rw [List.foldl_cons]
      exact buildResults_eq_foldl maxSteps g site occs (addResult rs s ts)

theorem resKeys_foldl_nodup (L : List (List NodeTraversal × List Char)) :
    ∀ rs, (resKeys rs).Nodup → (resKeys (L.foldl resStep rs)).Nodup := by
  induction L with
  | nil => intro rs h; exact h
  | cons r L ih =>
    intro rs h
    exact ih _ (nodup_resKeys_addResult rs r.2 r.1 h)

/-- Lookup in the folded results map: the stored traversal list is the one
of the first walk spelling the sequence, and the stored count is the number
of walks spelling it. -/
theorem resLookup_foldl (s : List Char) :
    ∀ (L : List (List NodeTraversal × List Char))
      (rs : List (List Char × List NodeTraversal × ℕ)),
      resLookup (L.foldl resStep rs) s =
        match resLookup rs s with
        | some (t, c) => some (t, c + (L.filter (fun r => r.2 = s)).length)
        | none =>
            (L.find? (fun r => r.2 = s)).map
              (fun r => (r.1, (L.filter (fun r => r.2 = s)).length))
  | [], rs => by
    match h : resLookup rs s with
    | some (t, c) => simp [h]
    | none => simp [h]
  | r :: L, rs => by
    rw [List.foldl_cons, resLookup_foldl s L (resStep rs r)]
    by_cases hr : r.2 = s
    · have hfind : (r :: L).find? (fun r => decide (r.2 = s)) = some r := by
        simp [List.find?, hr]
      have hfilter : ((r :: L).filter (fun r => decide (r.2 = s))) =
          r :: (L.filter (fun r => decide (r.2 = s))) := by
        simp [List.filter, hr]
      rw [resStep, ← hr, resLookup_addResult_self]
      match h : resLookup rs r.2 with
      | some (t, c) =>
        simp only [hr] at h
        simp [h, hr, hfilter, Nat.add_assoc, Nat.add_comm 1]
      | none =>
        simp only [hr] at h
        simp [h, hr, hfind, hfilter, Nat.add_comm 1]
    · have hfind : (r :: L).find? (fun r => decide (r.2 = s)) =
          L.find? (fun r => decide (r.2 = s)) := by
        simp [List.find?, hr]
      have hfilter : ((r :: L).filter (fun r => decide (r.2 = s))) =
          L.filter (fun r => decide (r.2 = s)) := by
        simp [List.filter, hr]
      rw [resStep, resLookup_addResult_ne rs r.2 r.1 s (fun hc => hr hc.symm)]
      match h : resLookup rs s with
      | some (t, c) => simp [h, hfilter]
      | none => simp [h, hfind, hfilter]

/-- Full characterization of the emitted alleles: an allele is emitted iff
it is the traversal list of the first completed walk spelling some sequence
`s`, and the number of completed walks spelling `s` reaches
`min_recurrence`. -/
theorem mem_get_paths_iff (maxSteps minRec : ℕ) (g : VGGraph) (site : Site)
    (paths : List (String × List Mapping)) (l : List NodeTraversal) :
    l ∈ get_paths_through_site maxSteps minRec g site paths ↔
      ∃ s, firstWalk maxSteps g site (startOccurrences site paths) s = some l ∧
        minRec ≤ walkCount maxSteps g site (startOccurrences site paths) s := by
  have hbuild : buildResults maxSteps g site (startOccurrences site paths) =
      ((startOccurrences site paths).filterMap (occWalk maxSteps g site)).foldl resStep [] :=
    buildResults_eq_foldl maxSteps g site (startOccurrences site paths) []
  have hnodup : (resKeys (((startOccurrences site paths).filterMap
      (occWalk maxSteps g site)).foldl resStep [])).Nodup :=
    resKeys_foldl_nodup _ [] (by simp [resKeys])
  unfold get_paths_through_site
  rw [hbuild]
  constructor
  · intro hl
    rw [List.mem_map] at hl
    obtain ⟨e, he, rfl⟩ := hl
    rw [List.mem_filter] at he
    obtain ⟨heR, hcount⟩ := he
    have hlook := (mem_iff_resLookup _ hnodup e).mp heR
    rw [resLookup_foldl, resLookup_nil] at hlook
    obtain ⟨r, hfind, hre⟩ := Option.map_eq_some'.mp hlook
    refine ⟨e.1, ?_, ?_⟩
    · rw [firstWalk, hfind]
      simp only [Option.map_some']
      rw [congrArg Prod.fst hre]
    · rw [walkCount]
      have : (((startOccurrences site paths).filterMap (occWalk maxSteps g site)).filter
          (fun r => r.2 = e.1)).length = e.2.2 := congrArg Prod.snd hre
      rw [this]
      simpa using hcount
  · rintro ⟨s, hfw, hcount⟩
    rw [firstWalk] at hfw
    obtain ⟨r, hfind, hr1⟩ := Option.map_eq_some'.mp hfw
    have hlookup : resLookup (((startOccurrences site paths).filterMap
        (occWalk maxSteps g site)).foldl resStep []) s =
        some (r.1, (((startOccurrences site paths).filterMap
          (occWalk maxSteps g site)).filter (fun r => r.2 = s)).length) := by
      rw [resLookup_foldl, resLookup_nil, hfind]
      rfl
    have hmem := (mem_iff_resLookup _ hnodup (s, r.1, _)).mpr hlookup
    refine List.mem_map.mpr ⟨(s, r.1, _), List.mem_filter.mpr ⟨hmem, ?_⟩, hr1⟩
    rw [walkCount] at hcount
    simpa using hcount

/-- The recurrence count of a sequence does not depend on the order in which
start occurrences are visited. -/
theorem walkCount_perm (maxSteps : ℕ) (g : VGGraph) (site : Site)
    {occs1 occs2 : List (List Mapping × ℕ)} (h : occs1.Perm occs2) (s : List Char) :
    walkCount maxSteps g site occs1 s = walkCount maxSteps g site occs2 s :=
  ((h.filterMap (occWalk maxSteps g site)).filter _).length_eq

/-- A sequence is emitted iff it is spelled by at least one completed walk
and its recurrence count reaches `min_recurrence`. -/
theorem mem_emittedSeqs_iff (maxSteps minRec : ℕ) (g : VGGraph) (site : Site)
    (occs : List (List Mapping × ℕ)) (s : List Char) :
    s ∈ emittedSeqs maxSteps minRec g site occs ↔
      1 ≤ walkCount maxSteps g site occs s ∧ minRec ≤ walkCount maxSteps g site occs s := by
  have hbuild : buildResults maxSteps g site occs =
      (occs.filterMap (occWalk maxSteps g site)).foldl resStep [] :=
    buildResults_eq_foldl maxSteps g site occs []
  have hnodup : (resKeys ((occs.filterMap (occWalk maxSteps g site)).foldl
      resStep [])).Nodup :=
    resKeys_foldl_nodup _ [] (by simp [resKeys])
  unfold emittedSeqs
  rw [hbuild]
  constructor
  · intro hs
    rw [List.mem_map] at hs
    obtain ⟨e, he, rfl⟩ := hs
    rw [List.mem_filter] at he
    obtain ⟨heR, hcount⟩ := he
    have hlook := (mem_iff_resLookup _ hnodup e).mp heR
    rw [resLookup_foldl, resLookup_nil] at hlook
    obtain ⟨r, hfind, hre⟩ := Option.map_eq_some'.mp hlook
    constructor
    · rw [walkCount]
      have hpred := List.find?_some hfind
      have hrmem : r ∈ (occs.filterMap (occWalk maxSteps g site)).filter
          (fun r => r.2 = e.1) :=
        List.mem_filter.mpr ⟨List.mem_of_find?_eq_some hfind, hpred⟩
      have := List.length_pos_of_mem hrmem
      omega
    · rw [walkCount]
      have : (((occs.filterMap (occWalk maxSteps g site)).filter
          (fun r => r.2 = e.1)).length) = e.2.2 := congrArg Prod.snd hre
      rw [this]
      simpa using hcount
  · rintro ⟨h1, hmin⟩
    rw [walkCount] at h1
    have hex : ∃ r ∈ (occs.filterMap (occWalk maxSteps g site)),
        (fun r : List NodeTraversal × List Char => decide (r.2 = s)) r = true := by
      have := List.length_pos_iff_exists_mem.mp (by omega :
        0 < ((occs.filterMap (occWalk maxSteps g site)).filter
          (fun r => r.2 = s)).length)
      obtain ⟨r, hr⟩ := this
      exact ⟨r, (List.mem_filter.mp hr).1, (List.mem_filter.mp hr).2⟩
    obtain ⟨r, hfind⟩ := Option.isSome_iff_exists.mp (List.find?_isSome.mpr hex)
    have hlookup : resLookup ((occs.filterMap (occWalk maxSteps g site)).foldl
        resStep []) s =
        some (r.1, ((occs.filterMap (occWalk maxSteps g site)).filter
          (fun r => r.2 = s)).length) := by
      rw [resLookup_foldl, resLookup_nil, hfind]
      rfl
    have hmem := (mem_iff_resLookup _ hnodup (s, r.1, _)).mpr hlookup
    refine List.mem_map.mpr ⟨(s, r.1, _), List.mem_filter.mpr ⟨hmem, ?_⟩, rfl⟩
    rw [walkCount] at hmin
    simpa using hmin

/-! ### Claim C5 -/

/-- C5 (confirmed).  Every allele emitted by `get_paths_through_site` is a
non-empty traversal list whose first `NodeTraversal` is `site.start` (same
node, same orientation flag) and whose last is `site.end`, for every walking
direction and every strand of the starting mapping (both are universally
quantified through the start occurrences). -/
theorem claim_C5_alleles_anchored (maxSteps minRec : ℕ) (g : VGGraph) (site : Site)
    (paths : List (String × List Mapping)) (l : List NodeTraversal)
    (hl : l ∈ get_paths_through_site maxSteps minRec g site paths) :
    l ≠ [] ∧ l.head? = some site.start ∧ l.getLast? = some site.end_ := by
  obtain ⟨s, hfw, _⟩ := (mem_get_paths_iff maxSteps minRec g site paths l).mp hl
  rw [firstWalk] at hfw
  obtain ⟨r, hfind, hr1⟩ := Option.map_eq_some'.mp hfw
  have hrs : r.2 = s := by simpa using List.find?_some hfind
  obtain ⟨occ, hoccmem, hwalk⟩ := List.mem_filterMap.mp (List.mem_of_find?_eq_some hfind)
  have hocc := startOccurrences_spec site paths occ hoccmem
  have := occWalk_head_last maxSteps g site occ hocc r.1 r.2 (by rw [← hwalk])
  rw [hr1] at this
  exact this

/-- Witness for C5: on the example data the allele `1,2,4` is emitted, and
it indeed starts at `exSite.start` and ends at `exSite.end_`. -/
theorem claim_C5_alleles_anchored_witness :
    ([⟨1, false⟩, ⟨2, false⟩, ⟨4, false⟩] : List NodeTraversal) ≠ [] ∧
      ([⟨1, false⟩, ⟨2, false⟩, ⟨4, false⟩] : List NodeTraversal).head? = some exSite.start ∧
      ([⟨1, false⟩, ⟨2, false⟩, ⟨4, false⟩] : List NodeTraversal).getLast? = some exSite.end_ :=
  claim_C5_alleles_anchored 10 1 exGraph exSite [("a", exPathA), ("b", exPathB)]
    [⟨1, false⟩, ⟨2, false⟩, ⟨4, false⟩] (by decide)

/-! ### Claim C6 -/

/-- C6 (confirmed).  The enumerator emits exactly the traversal lists whose
sequence-deduplicated occurrence count across the embedded paths reaches
`min_recurrence` (first conjunct: an allele is emitted iff it is the first
walk spelling its sequence and that sequence is spelled by at least
`min_recurrence` completed walks).  In particular (second conjunct) the
reference path contributes a single occurrence, so with `min_recurrence = 2`
an allele realized only by the reference path is dropped. -/
theorem claim_C6_min_recurrence_filter :
    (∀ (maxSteps minRec : ℕ) (g : VGGraph) (site : Site)
        (paths : List (String × List Mapping)) (l : List NodeTraversal),
      l ∈ get_paths_through_site maxSteps minRec g site paths ↔
        ∃ s, firstWalk maxSteps g site (startOccurrences site paths) s = some l ∧
          minRec ≤ walkCount maxSteps g site (startOccurrences site paths) s) ∧
    get_paths_through_site 10 2 exGraph exSite [("ref", exPathA)] = [] :=
  ⟨mem_get_paths_iff, by decide⟩

/-! ### Claim C7 -/

/-- Counterexample to C7 as stated: the two orders of the same two embedded
paths emit different traversal sets.  Both paths spell `GAC`; the map
deduplicates on the sequence and keeps the traversal list of whichever walk
came first, so the emitted traversal `1,2,4` of the first order is absent
from the output of the second order. -/
theorem claim_C7_counterexample :
    ([⟨1, false⟩, ⟨2, false⟩, ⟨4, false⟩] : List NodeTraversal) ∈
        get_paths_through_site 10 1 exGraph exSite [("a", exPathA), ("b", exPathB)] ∧
      ([⟨1, false⟩, ⟨2, false⟩, ⟨4, false⟩] : List NodeTraversal) ∉
        get_paths_through_site 10 1 exGraph exSite [("b", exPathB), ("a", exPathA)] := by
  decide

/-- C7 (amended).  What is invariant under re-ordering the embedded paths
and their mappings is the sequence level output, not the traversal lists:
permuting the path list permutes the start occurrences, and for permuted
start occurrences every sequence keeps its recurrence count and its
emitted-or-not status.  (The traversal list chosen for a sequence depends on
the iteration order, as the counterexample shows.) -/
theorem claim_C7_amended_sequence_determinism :
    (∀ (site : Site) (paths1 paths2 : List (String × List Mapping)),
      paths1.Perm paths2 →
        (startOccurrences site paths1).Perm (startOccurrences site paths2)) ∧
    (∀ (maxSteps minRec : ℕ) (g : VGGraph) (site : Site)
        (occs1 occs2 : List (List Mapping × ℕ)), occs1.Perm occs2 →
      ∀ s : List Char,
        walkCount maxSteps g site occs1 s = walkCount maxSteps g site occs2 s ∧
          (s ∈ emittedSeqs maxSteps minRec g site occs1 ↔
            s ∈ emittedSeqs maxSteps minRec g site occs2)) := by
  constructor
  · intro site paths1 paths2 h
    exact List.Perm.flatMap_right _ (h.filter _)
  · intro maxSteps minRec g site occs1 occs2 h s
    refine ⟨walkCount_perm maxSteps g site h s, ?_⟩
    rw [mem_emittedSeqs_iff, mem_emittedSeqs_iff, walkCount_perm maxSteps g site h s]

/-- Witness for the amended C7: reversing the two example paths is a
permutation, and the sequence `GAC` keeps its count (2) and stays emitted in
both orders. -/
theorem claim_C7_amended_sequence_determinism_witness :
    (startOccurrences exSite [("a", exPathA), ("b", exPathB)]).Perm
        (startOccurrences exSite [("b", exPathB), ("a", exPathA)]) ∧
      walkCount 10 exGraph exSite (startOccurrences exSite [("a", exPathA), ("b", exPathB)])
          ['G', 'A', 'C'] =
        walkCount 10 exGraph exSite (startOccurrences exSite [("b", exPathB), ("a", exPathA)])
          ['G', 'A', 'C'] :=
  ⟨claim_C7_amended_sequence_determinism.1 exSite _ _ (by decide),
    (claim_C7_amended_sequence_determinism.2 10 1 exGraph exSite _ _
      (claim_C7_amended_sequence_determinism.1 exSite _ _ (by decide)) ['G', 'A', 'C']).1⟩

/-! ### Lemmas about the fast scorer -/

/-- The `std::mismatch` based test of the scorer is the prefix relation. -/
theorem mismatchToEnd_iff : ∀ (s t : List Char),
    mismatchToEnd s t = true ↔ s <+: t
  | [], t => by simp [mismatchToEnd]
  | a :: s, [] => by simp [mismatchToEnd]
  | a :: s, b :: t => by
    simp [mismatchToEnd, List.cons_prefix_cons, mismatchToEnd_iff s t]

/-- A non-empty list all of whose elements are `x` deduplicates to `[x]`. -/
theorem dedup_const {α : Type} [DecidableEq α] (x : α) :
    ∀ (l : List α), l ≠ [] → (∀ y ∈ l, y = x) → l.dedup = [x]
  | [], h, _ => absurd rfl h
  | a :: l, _, hall => by
    have ha : a = x := hall a (List.mem_cons_self a l)
    cases l with
    | nil => rw [ha]; simp
    | cons b l' =>
      have hrec : (b :: l').dedup = [x] :=
        dedup_const x (b :: l') (by simp)
          (fun y hy => hall y (List.mem_cons_of_mem a hy))
      have hb : b = x := hall b (by simp)
      have hmem : a ∈ b :: l' := by
        rw [ha, hb]
        exact List.mem_cons_self x l'
      rw [List.dedup_cons_of_mem hmem]
      exact hrec

/-- Scoring a read yields one affinity per allele string. -/
theorem score_read_length (g : VGGraph) (site : Site)
    (alleleStrings : List (List Char)) (p : List Mapping) :
    (score_read g site alleleStrings p).length = alleleStrings.length := by
  simp [score_read]

/-- The `k`-th affinity of a read scores the `k`-th allele string against
the read's canonical site data. -/
theorem score_read_get (g : VGGraph) (site : Site) (as : List (List Char))
    (p : List Mapping) (k : ℕ) (hk : k < (score_read g site as p).length) :
    (score_read g site as p).get ⟨k, hk⟩ =
      score_against site (readSiteTraversal g site p) (readSiteIsRev g site p)
        (readSiteSeq g site p)
        (as.get ⟨k, by rw [← score_read_length g site as p]; exact hk⟩) := by
  simp [score_read]

/-! ### Claim C1 -/

/-- Counterexample to C1 as stated: on the example data, the read `r` maps
only to the start node of the site (and touches no internal node), yet the
fast scorer does not drop it — it appears in the returned map with one
affinity record, which even marks it consistent (its one-node sequence is a
prefix of the allele). -/
theorem claim_C1_counterexample :
    get_affinities_fast exGraph exSite [exAllele] [("r", exRead)] =
      [("r", [⟨true, false, 1⟩])] := by decide

/-- C1 (amended).  A read whose site-restricted traversal touches only the
start node or only the end node of the site is dropped by the *slow* scorer
`get_affinities` (it fails the informative-read test and contributes no
affinities), but the *fast* scorer `get_affinities_fast` keeps it: it
appears in the returned map with a full affinity vector. -/
theorem claim_C1_amended_only_slow_scorer_drops (g : VGGraph) (site : Site)
    (alleles : List (List NodeTraversal)) (reads : List (String × List Mapping))
    (name : String) (p : List Mapping)
    (hmem : (name, p) ∈ reads)
    (hnodup : (reads.map (fun r => r.1)).Nodup)
    (halleles : alleles ≠ [])
    (htouch : ∃ m ∈ p, m.node_id ∈ site.contents)
    (honly : (∀ m ∈ p, m.node_id ∈ site.contents → m.node_id = site.start.node) ∨
      (∀ m ∈ p, m.node_id ∈ site.contents → m.node_id = site.end_.node)) :
    name ∉ get_affinities_reads site alleles reads ∧
      (name, score_read g site (alleles.map (traversals_to_string g)) p) ∈
        get_affinities_fast g site alleles reads := by
  obtain ⟨m0, hm0, hm0c⟩ := htouch
  have hrel : relevant_read site p = true := by
    simp only [relevant_read, List.any_eq_true, decide_eq_true_eq]
    exact ⟨m0, hm0, hm0c⟩
  -- the node-id list of the touched site nodes collapses to a single node
  have htouched : ∀ anchor : ℕ,
      (∀ m ∈ p, m.node_id ∈ site.contents → m.node_id = anchor) →
      ((p.filter (fun m => m.node_id ∈ site.contents)).map
        (fun m => m.node_id)).dedup = [anchor] := by
    intro anchor hanchor
    apply dedup_const
    · have : m0.node_id ∈ (p.filter (fun m => m.node_id ∈ site.contents)).map
          (fun m => m.node_id) :=
        List.mem_map.mpr ⟨m0, List.mem_filter.mpr ⟨hm0, by simpa using hm0c⟩, rfl⟩
      exact List.ne_nil_of_mem this
    · intro y hy
      obtain ⟨m, hmf, rfl⟩ := List.mem_map.mp hy
      obtain ⟨hmp, hmc⟩ := List.mem_filter.mp hmf
      exact hanchor m hmp (by simpa using hmc)
  have herase : ∀ anchor : ℕ, anchor = site.start.node ∨ anchor = site.end_.node →
      (([anchor].erase site.start.node).erase site.end_.node) = [] := by
    intro anchor hanchor
    by_cases h1 : anchor = site.start.node
    · rw [h1, List.erase_cons_head, List.erase_nil]
    · have h2 : anchor = site.end_.node := hanchor.resolve_left h1
      rw [List.erase_cons_tail (by simpa using (fun hc => h1 hc)), List.erase_nil,
        h2, List.erase_cons_head]
  have hinf : informative_read site p = false := by
    rcases honly with honly | honly
    · simp only [informative_read, htouched site.start.node honly,
        herase site.start.node (Or.inl rfl)]
      rfl
    · simp only [informative_read, htouched site.end_.node honly,
        herase site.end_.node (Or.inr rfl)]
      rfl
  constructor
  · intro hname
    cases alleles with
    | nil => exact halleles rfl
    | cons a0 as =>
      simp only [get_affinities_reads, List.isEmpty_cons, if_neg] at hname
      rw [if_neg (by simp)] at hname
      obtain ⟨r, hrf, hr1⟩ := List.mem_map.mp hname
      obtain ⟨hrmem, hrpred⟩ := List.mem_filter.mp hrf
      have hr : r = (name, p) := by
        apply List.inj_on_of_nodup_map hnodup hrmem hmem
        exact hr1
      rw [hr] at hrpred
      rw [Bool.and_eq_true] at hrpred
      rw [hinf] at hrpred
      exact Bool.false_ne_true hrpred.2
  · cases alleles with
    | nil => exact absurd rfl halleles
    | cons a0 as =>
      simp only [get_affinities_fast]
      rw [if_neg (by simp)]
      exact List.mem_map.mpr ⟨(name, p), List.mem_filter.mpr ⟨hmem, hrel⟩, rfl⟩

/-- Witness for the amended C1: the start-only read `r` of the example is
excluded from the slow scorer's read set but present in the fast scorer's
map. -/
theorem claim_C1_amended_only_slow_scorer_drops_witness :
    "r" ∉ get_affinities_reads exSite [exAllele] [("r", exRead)] ∧
      ("r", score_read exGraph exSite ([exAllele].map (traversals_to_string exGraph))
          exRead) ∈ get_affinities_fast exGraph exSite [exAllele] [("r", exRead)] :=
  claim_C1_amended_only_slow_scorer_drops exGraph exSite [exAllele] [("r", exRead)]
    "r" exRead (by decide) (by decide) (by decide) (by decide) (by decide)

/-! ### Claim C3 -/

/-- C3 (confirmed).  For every relevant read, the fast scorer emits the
read's affinity vector into its map, and the affinity against the `i`-th
allele sequence `path_seq` has: `consistent = (seq = path_seq)` when the
canonical traversal starts at `site.start` and ends at `site.end`;
`consistent ↔ seq` is a prefix of `path_seq` when it starts at `site.start`
only; `consistent ↔ seq` is a suffix of `path_seq` when it ends at
`site.end` only; and each affinity carries the canonicalization's
`is_reverse` flag and weight `1` if consistent, else `0`. -/
theorem claim_C3_fast_consistency_rules (g : VGGraph) (site : Site)
    (alleles : List (List NodeTraversal)) (reads : List (String × List Mapping))
    (name : String) (p : List Mapping)
    (hmem : (name, p) ∈ reads) (hrel : relevant_read site p = true)
    (halleles : alleles ≠ []) :
    (name, score_read g site (alleles.map (traversals_to_string g)) p) ∈
        get_affinities_fast g site alleles reads ∧
      ∀ i (hi : i < alleles.length),
        (score_read g site (alleles.map (traversals_to_string g)) p).get
            ⟨i, by rw [score_read_length, List.length_map]; exact hi⟩ =
          score_against site (readSiteTraversal g site p) (readSiteIsRev g site p)
            (readSiteSeq g site p) (traversals_to_string g (alleles.get ⟨i, hi⟩)) ∧
        ((score_read g site (alleles.map (traversals_to_string g)) p).get
            ⟨i, by rw [score_read_length, List.length_map]; exact hi⟩).is_reverse =
          readSiteIsRev g site p ∧
        ((score_read g site (alleles.map (traversals_to_string g)) p).get
            ⟨i, by rw [score_read_length, List.length_map]; exact hi⟩).affinity =
          (if ((score_read g site (alleles.map (traversals_to_string g)) p).get
            ⟨i, by rw [score_read_length, List.length_map]; exact hi⟩).consistent
           then 1 else 0) ∧
        (((readSiteTraversal g site p).head? = some site.start ∧
            (readSiteTraversal g site p).getLast? = some site.end_) →
          (((score_read g site (alleles.map (traversals_to_string g)) p).get
              ⟨i, by rw [score_read_length, List.length_map]; exact hi⟩).consistent = true ↔
            readSiteSeq g site p = traversals_to_string g (alleles.get ⟨i, hi⟩))) ∧
        (((readSiteTraversal g site p).head? = some site.start ∧
            ¬ (readSiteTraversal g site p).getLast? = some site.end_) →
          (((score_read g site (alleles.map (traversals_to_string g)) p).get
              ⟨i, by rw [score_read_length, List.length_map]; exact hi⟩).consistent = true ↔
            readSiteSeq g site p <+: traversals_to_string g (alleles.get ⟨i, hi⟩))) ∧
        ((¬ (readSiteTraversal g site p).head? = some site.start ∧
            (readSiteTraversal g site p).getLast? = some site.end_) →
          (((score_read g site (alleles.map (traversals_to_string g)) p).get
              ⟨i, by rw [score_read_length, List.length_map]; exact hi⟩).consistent = true ↔
            readSiteSeq g site p <:+ traversals_to_string g (alleles.get ⟨i, hi⟩))) := by
  constructor
  · cases alleles with
    | nil => exact absurd rfl halleles
    | cons a0 as =>
      simp only [get_affinities_fast]
      rw [if_neg (by simp)]
      exact List.mem_map.mpr ⟨(name, p), List.mem_filter.mpr ⟨hmem, hrel⟩, rfl⟩
  · intro i hi
    have hget : (score_read g site (alleles.map (traversals_to_string g)) p).get
        ⟨i, by rw [score_read_length, List.length_map]; exact hi⟩ =
        score_against site (readSiteTraversal g site p) (readSiteIsRev g site p)
          (readSiteSeq g site p) (traversals_to_string g (alleles.get ⟨i, hi⟩)) := by
      simp [score_read, List.get_map]
    refine ⟨hget, ?_, ?_, ?_, ?_, ?_⟩ <;> rw [hget]
    · rfl
    · rfl
    · intro hb
      rw [score_against]
      simp only []
      rw [if_pos hb]
      exact beq_iff_eq
    · rintro ⟨h1, h2⟩
      have hnot : ¬ ((readSiteTraversal g site p).head? = some site.start ∧
          (readSiteTraversal g site p).getLast? = some site.end_) := fun hb => h2 hb.2
      rw [score_against]
      simp only []
      rw [if_neg hnot, if_pos h1]
      exact mismatchToEnd_iff _ _
    · rintro ⟨h1, h2⟩
      have hnot : ¬ ((readSiteTraversal g site p).head? = some site.start ∧
          (readSiteTraversal g site p).getLast? = some site.end_) := fun hb => h1 hb.1
      rw [score_against]
      simp only []
      rw [if_neg hnot, if_neg h1, if_pos h2]
      rw [mismatchToEnd_iff]
      exact List.reverse_prefix

/-- Witness for C3: the scored entry of the example read is in the map. -/
theorem claim_C3_fast_consistency_rules_witness :
    ("r", score_read exGraph exSite ([exAllele].map (traversals_to_string exGraph))
        exRead) ∈ get_affinities_fast exGraph exSite [exAllele] [("r", exRead)] :=
  (claim_C3_fast_consistency_rules exGraph exSite [exAllele] [("r", exRead)] "r" exRead
    (by decide) (by decide) (by decide)).1

/-! ### Claim C10 -/

/-- C10 (confirmed).  Every read in the fast scorer's map has exactly one
affinity entry per candidate allele (so any allele index below the allele
count is in range for the genotyper's per-allele lookup), all of its entries
share one `is_reverse` flag (in particular a single read never supports one
allele forward and another reverse), and the entry at index `i` is the score
of the read's canonical site data against allele `i`'s sequence. -/
theorem claim_C10_affinity_vector_shape (g : VGGraph) (site : Site)
    (alleles : List (List NodeTraversal)) (reads : List (String × List Mapping))
    (name : String) (affs : List Affinity)
    (h : (name, affs) ∈ get_affinities_fast g site alleles reads) :
    affs.length = alleles.length ∧
      (∀ a, a < alleles.length → a < affs.length) ∧
      (∀ i j (hi : i < affs.length) (hj : j < affs.length),
        (affs.get ⟨i, hi⟩).is_reverse = (affs.get ⟨j, hj⟩).is_reverse) ∧
      (∀ i j (hi : i < affs.length) (hj : j < affs.length),
        (affs.get ⟨i, hi⟩).consistent = true → (affs.get ⟨j, hj⟩).consistent = true →
        (affs.get ⟨i, hi⟩).is_reverse = (affs.get ⟨j, hj⟩).is_reverse) ∧
      (∃ p, (name, p) ∈ reads ∧
        ∀ i (hi : i < affs.length) (hi' : i < alleles.length),
          affs.get ⟨i, hi⟩ =
            score_against site (readSiteTraversal g site p) (readSiteIsRev g site p)
              (readSiteSeq g site p)
              (traversals_to_string g (alleles.get ⟨i, hi'⟩))) := by
  rw [get_affinities_fast] at h
  split at h
  · simp at h
  · obtain ⟨r, hrf, hreq⟩ := List.mem_map.mp h
    obtain ⟨rn, rp⟩ := r
    obtain ⟨hrmem, _⟩ := List.mem_filter.mp hrf
    cases hreq
    have hg : ∀ k (hk : k <
        (score_read g site (alleles.map (traversals_to_string g)) rp).length),
        ((score_read g site (alleles.map (traversals_to_string g)) rp).get
          ⟨k, hk⟩).is_reverse = readSiteIsRev g site rp := by
      intro k hk
      rw [score_read_get]
      rfl
    have hlen : (score_read g site (alleles.map (traversals_to_string g)) rp).length =
        alleles.length := by
      rw [score_read_length, List.length_map]
    refine ⟨hlen, fun a ha => hlen ▸ ha, ?_, ?_, ?_⟩
    · intro i j hi hj
      rw [hg i hi, hg j hj]
    · intro i j hi hj _ _
      rw [hg i hi, hg j hj]
    · refine ⟨rp, hrmem, ?_⟩
      intro i hi hi'
      rw [score_read_get]
      have : ((alleles.map (traversals_to_string g)).get
          ⟨i, by rw [← score_read_length g site (alleles.map (traversals_to_string g)) rp]
                 exact hi⟩) = traversals_to_string g (alleles.get ⟨i, hi'⟩) := by
        simp
      rw [this]

/-- Witness for C10: on the example map entry, the affinity vector length
equals the allele count. -/
theorem claim_C10_affinity_vector_shape_witness :
    ([(⟨true, false, 1⟩ : Affinity)]).length = [exAllele].length :=
  (claim_C10_affinity_vector_shape exGraph exSite [exAllele] [("r", exRead)] "r"
    [⟨true, false, 1⟩] (by decide)).1

/-! ### Lemmas about the likelihood engine -/

theorem phred_to_prob_pos (q : ℝ) : 0 < phred_to_prob q := Real.exp_pos _

theorem phred_to_prob_lt_one {q : ℝ} (h : 0 < q) : phred_to_prob q < 1 := by
  rw [phred_to_prob, phred_to_logprob]
  have hlog : 0 < Real.log 10 := Real.log_pos (by norm_num)
  have : -(q / 10) * Real.log 10 < 0 :=
    mul_neg_of_neg_of_pos (by linarith) hlog
  calc Real.exp (-(q / 10) * Real.log 10) < Real.exp 0 := Real.exp_lt_exp.mpr this
    _ = 1 := Real.exp_zero

/-- `logprob_invert` of a Phred log-probability exponentiates back to the
complement probability, provided the probability is below 1. -/
theorem exp_logprob_invert_phred {q : ℝ} (h : phred_to_prob q < 1) :
    Real.exp (logprob_invert (phred_to_logprob q)) = 1 - phred_to_prob q := by
  rw [logprob_invert]
  have : Real.exp (phred_to_logprob q) = phred_to_prob q := rfl
  rw [this]
  exact Real.exp_log (by linarith)

/-- The genotype-vector consistency count over a two-element vector is the
sum of the two indicator values. -/
theorem consistentAlleles_pair (i j : ℕ) (c : List Affinity) :
    consistentAlleles [i, j] c =
      (if countConsistent c i then 1 else 0) + (if countConsistent c j then 1 else 0) := by
  cases hci : countConsistent c i <;> cases hcj : countConsistent c j <;>
    simp [consistentAlleles, List.filter, hci, hcj]

/-! ### Claim C2 -/

/-- Counterexample to C2 as stated: for the homozygous genotype `(0, 0)`
and a read consistent with allele 0, the code's contribution is
`log(2/2) = 0`, not the claimed `log(1/2)`: the loop over the genotype
vector counts allele 0 twice. -/
theorem claim_C2_counterexample :
    readDrawnContribution [0, 0] [exAffF] ≠ Real.log (1 / 2) := by
  have h2 : ((consistentAlleles [0, 0] [exAffF] : ℕ) : ℝ) = 2 := by norm_num [consistentAlleles, countConsistent, exAffF, List.filter]
  have hv : readDrawnContribution [0, 0] [exAffF] = 0 := by
    unfold readDrawnContribution prob_to_logprob
    rw [h2]
    norm_num
  rw [hv]
  have hlt : Real.log (1 / 2) < 0 := Real.log_neg (by norm_num) (by norm_num)
  intro hc
  exact absurd hc.symm (ne_of_lt hlt)

/-- C2 (amended).  The per-read drawn contribution is
`log(m / 2)` with `m` counted over the genotype *vector with multiplicity*:
for a heterozygous genotype `i ≠ j` this agrees with the claim (`m` is the
number of distinct alleles of `{i, j}` the read is consistent with), but
for a homozygous genotype a consistent read contributes `log(2/2) = 0`,
not `log(1/2)`.  The inconsistent-read contribution is as claimed:
`log P_bq` without mapping qualities, and
`log(1 - (1 - P_mq)(1 - P_bq))` with them (for positive Phred values). -/
theorem claim_C2_amended_drawn_multiplicity :
    (∀ (i j : ℕ) (c : List Affinity), i ≠ j →
      readDrawnContribution [i, j] c =
        prob_to_logprob
          (((({i, j} : Finset ℕ).filter (fun a => countConsistent c a = true)).card : ℝ) /
            2)) ∧
    (∀ (i : ℕ) (c : List Affinity), countConsistent c i = true →
      readDrawnContribution [i, i] c = 0) ∧
    (∀ (dq : ℤ) (genotype : List ℕ) (al : AlignmentQ) (c : List Affinity),
      consistentAlleles genotype c = 0 →
      readContribution false dq genotype (al, c) =
        prob_to_logprob (phred_to_prob ((alignment_qual_score dq al : ℤ) : ℝ))) ∧
    (∀ (dq : ℤ) (genotype : List ℕ) (al : AlignmentQ) (c : List Affinity),
      consistentAlleles genotype c = 0 →
      1 ≤ al.mapping_quality → 1 ≤ alignment_qual_score dq al →
      readContribution true dq genotype (al, c) =
        Real.log (1 - (1 - phred_to_prob (al.mapping_quality : ℝ)) *
          (1 - phred_to_prob ((alignment_qual_score dq al : ℤ) : ℝ)))) := by
  refine ⟨?_, ?_, ?_, ?_⟩
  · intro i j c hij
    have hcard : (({i, j} : Finset ℕ).filter (fun a => countConsistent c a = true)).card =
        (if countConsistent c i then 1 else 0) + (if countConsistent c j then 1 else 0) := by
      rw [show ({i, j} : Finset ℕ) = insert i {j} from rfl, Finset.filter_insert,
        Finset.filter_singleton]
      by_cases hci : countConsistent c i = true <;>
        by_cases hcj : countConsistent c j = true <;>
          simp [hci, hcj, Finset.card_insert_of_not_mem, hij]
    unfold readDrawnContribution
    rw [consistentAlleles_pair, hcard]
    norm_num
  · intro i c hc
    have h2 : ((consistentAlleles [i, i] c : ℕ) : ℝ) = 2 := by
      norm_num [consistentAlleles, List.filter, hc]
    unfold readDrawnContribution prob_to_logprob
    rw [h2]
    norm_num
  · intro dq genotype al c hk
    unfold readContribution
    rw [if_pos hk]
    unfold readWrongContribution prob_to_logprob
    rw [if_neg (by simp)]
    exact (Real.log_exp _).symm
  · intro dq genotype al c hk hmq hq
    have hm1 : phred_to_prob (al.mapping_quality : ℝ) < 1 :=
      phred_to_prob_lt_one (by exact_mod_cast Nat.lt_of_lt_of_le Nat.zero_lt_one hmq)
    have hb1 : phred_to_prob ((alignment_qual_score dq al : ℤ) : ℝ) < 1 :=
      phred_to_prob_lt_one (by exact_mod_cast lt_of_lt_of_le Int.zero_lt_one hq)
    unfold readContribution
    rw [if_pos hk]
    unfold readWrongContribution
    rw [if_pos rfl]
    rw [logprob_invert, Real.exp_add, exp_logprob_invert_phred hm1,
      exp_logprob_invert_phred hb1]

/-- Witness for the amended C2: hom contribution 0, het distinct counting,
and the mapping-quality wrong-read formula, all at concrete inputs. -/
theorem claim_C2_amended_drawn_multiplicity_witness :
    readDrawnContribution [0, 0] [exAffF] = 0 ∧
      readDrawnContribution [0, 1] [exAffF] =
        prob_to_logprob
          (((({0, 1} : Finset ℕ).filter
              (fun a => countConsistent [exAffF] a = true)).card : ℝ) / 2) ∧
      readContribution true 15 [0, 1] (exAlq0, []) =
        Real.log (1 - (1 - phred_to_prob ((exAlq0.mapping_quality : ℕ) : ℝ)) *
          (1 - phred_to_prob ((alignment_qual_score 15 exAlq0 : ℤ) : ℝ))) :=
  ⟨claim_C2_amended_drawn_multiplicity.2.1 0 [exAffF] (by decide),
    claim_C2_amended_drawn_multiplicity.1 0 1 [exAffF] (by decide),
    claim_C2_amended_drawn_multiplicity.2.2.2 15 [0, 1] exAlq0 [] (by decide)
      (by decide) (by decide)⟩

/-! ### Lemmas about the strand-balance term -/

/-- Value of the per-read strand update at a point: a read bumps the
counter of allele `x` once per occurrence of `x` in the genotype vector,
in the read's orientation. -/
theorem readStrandUpdate_spec (c : List Affinity) :
    ∀ (genotype : List ℕ) (m : ℕ → ℕ × ℕ) (x : ℕ),
      readStrandUpdate c genotype m x =
        if countConsistent c x then
          (if affIsRev c x then ((m x).1, (m x).2 + genotype.count x)
           else ((m x).1 + genotype.count x, (m x).2))
        else m x
  | [], m, x => by
    cases hc : countConsistent c x <;> cases hr : affIsRev c x <;>
      simp [readStrandUpdate, hc, hr]
  | a :: rest, m, x => by
    have hstep : readStrandUpdate c (a :: rest) m = readStrandUpdate c rest
        (if countConsistent c a then updateFun m a (strandBump (m a) (affIsRev c a))
         else m) := rfl
    rw [hstep, readStrandUpdate_spec c rest _ x]
    by_cases hxa : x = a
    · subst hxa
      cases hc : countConsistent c x <;> cases hr : affIsRev c x <;>
        simp [hc, hr, updateFun, strandBump, List.count_cons, Prod.ext_iff] <;> omega
    · have hcount : (a :: rest).count x = rest.count x := by
        simp [List.count_cons, Ne.symm hxa, hxa]
      cases hca : countConsistent c a <;>
        simp [hca, updateFun, hxa, hcount]

/-- Value of the strand-count map at a point: each occurrence of `x` in the
genotype vector multiplies the read-level forward/reverse support. -/
theorem strandCounts_foldl_spec (genotype : List ℕ) :
    ∀ (reads : List (AlignmentQ × List Affinity)) (m : ℕ → ℕ × ℕ) (x : ℕ),
      (reads.foldl (fun m r => readStrandUpdate r.2 genotype m) m) x =
        ((m x).1 + genotype.count x * fwdSupport reads x,
         (m x).2 + genotype.count x * revSupport reads x)
  | [], m, x => by simp [fwdSupport, revSupport]
  | r :: rest, m, x => by
    rw [List.foldl_cons, strandCounts_foldl_spec genotype rest _ x,
      readStrandUpdate_spec]
    by_cases hc : countConsistent r.2 x = true <;>
      by_cases hr : affIsRev r.2 x = true
    · simp only [hc, hr, if_true, if_pos]
      simp [fwdSupport, revSupport, List.filter, hc, hr, Prod.ext_iff]
      ring
    · rw [if_pos hc, if_neg (by simp [hr])]
      simp [fwdSupport, revSupport, List.filter, hc, hr, Prod.ext_iff]
      ring
    · rw [if_neg (by simp [hc])]
      simp [fwdSupport, revSupport, List.filter, hc]
    · rw [if_neg (by simp [hc])]
      simp [fwdSupport, revSupport, List.filter, hc]

/-- Closed form of the strand-count map. -/
theorem strandCountsMap_spec (genotype : List ℕ)
    (reads : List (AlignmentQ × List Affinity)) (x : ℕ) :
    strandCountsMap genotype reads x =
      (genotype.count x * fwdSupport reads x, genotype.count x * revSupport reads x) := by
  rw [strandCountsMap, strandCounts_foldl_spec]
  simp

/-! ### Claim C4 -/

/-- Counterexample to C4 as stated: for the homozygous genotype `(0, 0)`
with one forward and one reverse read consistent with allele 0, the code
feeds the doubled counts `(2, 2)` to the multinomial term
(`log(6/16)`), not the plain per-allele counts `(1, 1)` (`log(1/2)`). -/
theorem claim_C4_counterexample :
    strandTerm [0, 0] [(exAlq0, [exAffF]), (exAlq0, [exAffR])] ≠
      multinomial_sampling_prob_ln 1 1 := by
  have hc : strandCountsMap [0, 0] [(exAlq0, [exAffF]), (exAlq0, [exAffR])] 0 = (2, 2) := rfl
  have hd : ([0, 0] : List ℕ).dedup = [0] := rfl
  have hterm : strandTerm [0, 0] [(exAlq0, [exAffF]), (exAlq0, [exAffR])] =
      multinomial_sampling_prob_ln 2 2 := by
    unfold strandTerm
    rw [hd]
    simp [hc]
  have h1 : multinomial_sampling_prob_ln 2 2 = Real.log (3 / 8) := by
    unfold multinomial_sampling_prob_ln
    rw [show Nat.choose (2 + 2) 2 = 6 from rfl]
    norm_num
  have h2 : multinomial_sampling_prob_ln 1 1 = Real.log (1 / 2) := by
    unfold multinomial_sampling_prob_ln
    rw [show Nat.choose (1 + 1) 1 = 2 from rfl]
    norm_num
  rw [hterm, h1, h2]
  exact ne_of_lt (Real.log_lt_log (by norm_num) (by norm_num))

/-- C4 (amended).  The strand-balance term applies one multinomial factor
per distinct genotype allele, but on counts multiplied by the allele's
multiplicity in the genotype vector: the strand-count map stores
`count(a) · (f_a, r_a)` (first conjunct); for a heterozygous genotype the
claim holds as written with the plain counts (second conjunct); for a
homozygous genotype the counts are doubled (third conjunct). -/
theorem claim_C4_amended_strand_doubling :
    (∀ (genotype : List ℕ) (reads : List (AlignmentQ × List Affinity)) (x : ℕ),
      strandCountsMap genotype reads x =
        (genotype.count x * fwdSupport reads x, genotype.count x * revSupport reads x)) ∧
    (∀ (i j : ℕ) (reads : List (AlignmentQ × List Affinity)), i ≠ j →
      strandTerm [i, j] reads =
        (if (fwdSupport reads i, revSupport reads i) = (0, 0) then 0
         else multinomial_sampling_prob_ln (fwdSupport reads i) (revSupport reads i)) +
        (if (fwdSupport reads j, revSupport reads j) = (0, 0) then 0
         else multinomial_sampling_prob_ln (fwdSupport reads j) (revSupport reads j))) ∧
    (∀ (i : ℕ) (reads : List (AlignmentQ × List Affinity)),
      strandTerm [i, i] reads =
        (if (fwdSupport reads i, revSupport reads i) = (0, 0) then 0
         else multinomial_sampling_prob_ln (2 * fwdSupport reads i)
           (2 * revSupport reads i))) := by
  refine ⟨strandCountsMap_spec, ?_, ?_⟩
  · intro i j reads hij
    have hd : ([i, j] : List ℕ).dedup = [i, j] := by
      simp [List.dedup_cons_of_not_mem, hij]
    have hci : ([i, j] : List ℕ).count i = 1 := by
      simp [List.count_cons, hij, Ne.symm hij]
    have hcj : ([i, j] : List ℕ).count j = 1 := by
      simp [List.count_cons, hij, Ne.symm hij]
    unfold strandTerm
    rw [hd]
    simp only [List.map_cons, List.map_nil, List.sum_cons, List.sum_nil, add_zero,
      strandCountsMap_spec, hci, hcj, one_mul]
  · intro i reads
    have hd : ([i, i] : List ℕ).dedup = [i] := by
      simp [List.dedup_cons_of_mem]
    have hci : ([i, i] : List ℕ).count i = 2 := by
      simp [List.count_cons]
    unfold strandTerm
    rw [hd]
    simp only [List.map_cons, List.map_nil, List.sum_cons, List.sum_nil, add_zero,
      strandCountsMap_spec, hci]
    have hiff : ((2 * fwdSupport reads i, 2 * revSupport reads i) = ((0 : ℕ), (0 : ℕ))) ↔
        ((fwdSupport reads i, revSupport reads i) = ((0 : ℕ), (0 : ℕ))) := by
      constructor <;> intro h <;>
        (rw [Prod.ext_iff] at h ⊢; constructor <;> omega)
    rw [if_congr hiff rfl rfl]

/-- Witness for the amended C4: the heterozygous case at a concrete input,
with the hypothesis `0 ≠ 1` discharged. -/
theorem claim_C4_amended_strand_doubling_witness :
    strandTerm [0, 1] [(exAlq0, [exAffF])] =
      (if (fwdSupport [(exAlq0, [exAffF])] 0, revSupport [(exAlq0, [exAffF])] 0) = (0, 0)
       then 0
       else multinomial_sampling_prob_ln (fwdSupport [(exAlq0, [exAffF])] 0)
         (revSupport [(exAlq0, [exAffF])] 0)) +
      (if (fwdSupport [(exAlq0, [exAffF])] 1, revSupport [(exAlq0, [exAffF])] 1) = (0, 0)
       then 0
       else multinomial_sampling_prob_ln (fwdSupport [(exAlq0, [exAffF])] 1)
         (revSupport [(exAlq0, [exAffF])] 1)) :=
  claim_C4_amended_strand_doubling.2.1 0 1 [(exAlq0, [exAffF])] (by decide)

/-! ### Lemmas about the genotype enumeration -/

/-- Membership in the enumerated pairs: exactly the `(i, j)` with
`j ≤ i < n`. -/
theorem mem_genotype_pairs (n i j : ℕ) :
    (i, j) ∈ genotype_pairs n ↔ j ≤ i ∧ i < n := by
  constructor
  · intro h
    simp only [genotype_pairs, List.mem_flatMap, List.mem_map, List.mem_range] at h
    obtain ⟨a1, ha1, a2, ha2, heq⟩ := h
    cases heq
    exact ⟨Nat.lt_succ_iff.mp ha2, ha1⟩
  · rintro ⟨hj, hi⟩
    simp only [genotype_pairs, List.mem_flatMap, List.mem_map, List.mem_range]
    exact ⟨i, hi, j, Nat.lt_succ_iff.mpr hj, rfl⟩

/-- The enumerated pairs are pairwise distinct: each unordered pair occurs
exactly once. -/
theorem genotype_pairs_nodup (n : ℕ) : (genotype_pairs n).Nodup := by
  induction n with
  | zero => simp [genotype_pairs]
  | succ n ih =>
    have hsplit : genotype_pairs (n + 1) =
        genotype_pairs n ++ (List.range (n + 1)).map (fun a2 => (n, a2)) := by
      unfold genotype_pairs
      rw [List.range_succ, List.flatMap_append, List.flatMap_cons, List.flatMap_nil,
        List.append_nil, List.range_succ]
    rw [hsplit, List.nodup_append]
    refine ⟨ih, ?_, ?_⟩
    · exact (List.nodup_range _).map (fun a b hab => (Prod.ext_iff.mp hab).2)
    · intro x hx hx'
      obtain ⟨a2, _, rfl⟩ := List.mem_map.mp hx'
      have := (mem_genotype_pairs n n a2).mp hx
      omega

/-- Structure of the built-and-sorted genotype list, generic in the score
type: its allele pairs are a permutation of the enumeration, it is sorted by
descending posterior, and every entry carries
`log_posterior = log_likelihood + log_prior` with the given score
functions. -/
theorem genotypes_sorted_spec (α : Type) [LinearOrder α] [Add α] (n : ℕ)
    (ll prior : ℕ → ℕ → α) :
    ((genotypes_sorted α n ll prior).map
        (fun gt => (gt.allele1, gt.allele2))).Perm (genotype_pairs n) ∧
      List.Sorted postGE (genotypes_sorted α n ll prior) ∧
      ∀ gt ∈ genotypes_sorted α n ll prior,
        gt.log_posterior = gt.log_likelihood + gt.log_prior ∧
        gt.log_likelihood = ll gt.allele1 gt.allele2 ∧
        gt.log_prior = prior gt.allele1 gt.allele2 := by
  unfold genotypes_sorted
  refine ⟨?_, List.sorted_insertionSort postGE _, ?_⟩
  · have hmapped := (List.perm_insertionSort postGE ((genotype_pairs n).map
      (fun pr => (⟨pr.1, pr.2, ll pr.1 pr.2, prior pr.1 pr.2,
        ll pr.1 pr.2 + prior pr.1 pr.2⟩ : GenotypeE α)))).map
      (fun gt : GenotypeE α => (gt.allele1, gt.allele2))
    have heq : (((genotype_pairs n).map
        (fun pr => (⟨pr.1, pr.2, ll pr.1 pr.2, prior pr.1 pr.2,
          ll pr.1 pr.2 + prior pr.1 pr.2⟩ : GenotypeE α))).map
        (fun gt : GenotypeE α => (gt.allele1, gt.allele2))) = genotype_pairs n := by
      rw [List.map_map]
      have hfun : ((fun gt : GenotypeE α => (gt.allele1, gt.allele2)) ∘
          (fun pr : ℕ × ℕ => (⟨pr.1, pr.2, ll pr.1 pr.2, prior pr.1 pr.2,
            ll pr.1 pr.2 + prior pr.1 pr.2⟩ : GenotypeE α))) = id :=
        funext fun pr => rfl
      rw [hfun, List.map_id]
    have hBp : (((genotype_pairs n).map
        (fun pr => (⟨pr.1, pr.2, ll pr.1 pr.2, prior pr.1 pr.2,
          ll pr.1 pr.2 + prior pr.1 pr.2⟩ : GenotypeE α))).map
        (fun gt : GenotypeE α => (gt.allele1, gt.allele2))).Perm (genotype_pairs n) := by
      rw [heq]
    exact hmapped.trans hBp
  · intro gt hgt
    have hmem : gt ∈ (genotype_pairs n).map
        (fun pr => (⟨pr.1, pr.2, ll pr.1 pr.2, prior pr.1 pr.2,
          ll pr.1 pr.2 + prior pr.1 pr.2⟩ : GenotypeE α)) :=
      (List.perm_insertionSort postGE _).mem_iff.mp hgt
    obtain ⟨pr, _, rfl⟩ := List.mem_map.mp hmem
    exact ⟨rfl, rfl, rfl⟩

/-! ### Claim C8 -/

/-- C8 (confirmed).  The genotype list emitted by `genotype_site` contains
every unordered allele pair exactly once (its projection to allele pairs is
a permutation of the duplicate-free enumeration of all `(i, j)` with
`j ≤ i < n`), is sorted with monotonically non-increasing `log_posterior`,
and every entry's `log_posterior` is its `log_likelihood` plus its
`log_prior` (with the scores computed by the likelihood engine and the
prior). -/
theorem claim_C8_genotypes_sorted_posterior (um : Bool) (dq : ℤ) (hp : ℝ) (n : ℕ)
    (reads : List (AlignmentQ × List Affinity)) :
    ((genotype_site_genotypes um dq hp n reads).map
        (fun gt => (gt.allele1, gt.allele2))).Perm (genotype_pairs n) ∧
      (genotype_pairs n).Nodup ∧
      (∀ i j : ℕ, (i, j) ∈ genotype_pairs n ↔ j ≤ i ∧ i < n) ∧
      List.Sorted postGE (genotype_site_genotypes um dq hp n reads) ∧
      (∀ gt ∈ genotype_site_genotypes um dq hp n reads,
        gt.log_posterior = gt.log_likelihood + gt.log_prior ∧
        gt.log_likelihood =
          get_genotype_log_likelihood um dq [gt.allele1, gt.allele2] reads ∧
        gt.log_prior = get_genotype_log_prior hp [gt.allele1, gt.allele2]) := by
  obtain ⟨h1, h2, h3⟩ := genotypes_sorted_spec ℝ n
    (fun a1 a2 => get_genotype_log_likelihood um dq [a1, a2] reads)
    (fun a1 a2 => get_genotype_log_prior hp [a1, a2])
  exact ⟨h1, genotype_pairs_nodup n, fun i j => mem_genotype_pairs n i j, h2, h3⟩

/-! ### Lemmas about the variant emitter -/

/-- The per-allele loop appends one `allele_to_alt` entry per allele. -/
theorem alleleFold_a2a_length (supports : List (ℕ × ℕ)) :
    ∀ (l : List (ℕ × List Char)) (st : AlleleState),
      ((l.foldl (alleleFold supports) st).2.2.1).length = st.2.2.1.length + l.length
  | [], st => by simp
  | ia :: rest, st => by
    rw [List.foldl_cons, alleleFold_a2a_length supports rest _]
    have hstep : ((alleleFold supports st ia).2.2.1).length = st.2.2.1.length + 1 := by
      simp [alleleFold]
    simp only [List.length_cons]
    omega

/-- Every `allele_to_alt` entry is bounded by `max_alt_number`. -/
theorem alleleFold_a2a_bound (supports : List (ℕ × ℕ)) :
    ∀ (l : List (ℕ × List Char)) (st : AlleleState),
      (∀ v ∈ st.2.2.1, v ≤ st.2.2.2.1) →
      ∀ v ∈ (l.foldl (alleleFold supports) st).2.2.1,
        v ≤ (l.foldl (alleleFold supports) st).2.2.2.1
  | [], _, h => h
  | ia :: rest, st, h => by
    rw [List.foldl_cons]
    apply alleleFold_a2a_bound supports rest
    intro v hv
    simp only [alleleFold, List.mem_append, List.mem_singleton] at hv ⊢
    rcases hv with hv | rfl
    · exact le_trans (h v hv) (le_max_left _ _)
    · exact le_max_right _ _

/-- The PL loop succeeds whenever every genotype is diploid with allele
indices inside `allele_to_alt`. -/
theorem plFold_success (a2a : List ℕ) (maxAlt : ℕ)
    (hbound : ∀ v ∈ a2a, v ≤ maxAlt) :
    ∀ (gts : List GenotypeCall) (v : List (Option ℝ)),
      (∀ gt ∈ gts, gt.alleles.length = 2 ∧ ∀ aidx ∈ gt.alleles, aidx < a2a.length) →
      ∃ v', gts.foldl (plFold a2a (maxAlt * (maxAlt + 1) / 2 + maxAlt + 1)) (some v) =
        some v'
  | [], v, _ => ⟨v, rfl⟩
  | gt :: rest, v, h => by
    rw [List.foldl_cons]
    obtain ⟨h2, hidx⟩ := h gt (List.mem_cons_self _ _)
    obtain ⟨x, y, hxy⟩ := List.length_eq_two.mp h2
    have hx : x < a2a.length := hidx x (by rw [hxy]; simp)
    have hy : y < a2a.length := hidx y (by rw [hxy]; simp)
    have hbx : a2a[x] ≤ maxAlt := hbound _ (List.getElem_mem hx)
    have hby : a2a[y] ≤ maxAlt := hbound _ (List.getElem_mem hy)
    have hstep : ∃ v2, plFold a2a (maxAlt * (maxAlt + 1) / 2 + maxAlt + 1)
        (some v) gt = some v2 := by
      simp only [plFold, hxy]
      rw [show ([x, y].getD 0 0) = x from rfl, show ([x, y].getD 1 0) = y from rfl]
      rw [List.getElem?_eq_getElem hx, List.getElem?_eq_getElem hy]
      dsimp only
      rw [if_pos (by simp)]
      by_cases hc : a2a[y] < a2a[x]
      · rw [if_pos hc, if_pos hc, if_pos (by
          have hdiv : a2a[x] * (a2a[x] + 1) / 2 ≤ maxAlt * (maxAlt + 1) / 2 :=
            Nat.div_le_div_right (Nat.mul_le_mul hbx (by omega))
          omega)]
        exact ⟨_, rfl⟩
      · rw [if_neg hc, if_neg hc, if_pos (by
          have hdiv : a2a[y] * (a2a[y] + 1) / 2 ≤ maxAlt * (maxAlt + 1) / 2 :=
            Nat.div_le_div_right (Nat.mul_le_mul hby (by omega))
          omega)]
        exact ⟨_, rfl⟩
    obtain ⟨v2, hv2⟩ := hstep
    rw [hv2]
    exact plFold_success a2a maxAlt hbound rest v2
      (fun gt' hgt' => h gt' (List.mem_cons_of_mem _ hgt'))

/-! ### Claim C9 -/

/-- Counterexample to C9 as stated: a locus with one (non-empty) allele and
one diploid genotype, over a site whose two endpoints are both on the
reference, on which the emitter nevertheless produces no record: the
reference interval is inverted (start offset beyond end offset), so the
`assert(referenceIntervalStart <= referenceIntervalPastEnd)` aborts instead
of returning a non-empty list. -/
theorem claim_C9_counterexample :
    idxLookup exIxInverted exSite.start.node ≠ none ∧
      idxLookup exIxInverted exSite.end_.node ≠ none ∧
      exLocusGood.alleles ≠ [] ∧
      exLocusGood.genotypes ≠ [] ∧
      locus_to_variant exGraph exSite exIxInverted exLocusGood = none := by
  refine ⟨by decide, by decide, by decide, ?_, ?_⟩
  · simp [exLocusGood]
  · rfl

/-- C9 (amended).  For a locus with at least one allele whose first allele
is non-empty (as the genotyping step guarantees): if either site endpoint is
missing from the reference index, the emitter returns the empty record list;
if both endpoints are on the reference, it returns exactly one record
provided additionally that the reference interval is well formed (start
offset at most the past-the-end offset, which lies within the reference, and
positive so the left-anchor fix-up has a base to take) and every genotype of
the locus is diploid with allele indices in range. -/
theorem claim_C9_emitter_empty_vs_record (g : VGGraph) (site : Site) (ix : RefIndexE)
    (locus : LocusE)
    (h1 : locus.alleles ≠ [])
    (h2 : (locus.alleles.headD []).length ≠ 0) :
    ((idxLookup ix site.start.node = none ∨ idxLookup ix site.end_.node = none) →
      locus_to_variant g site ix locus = some []) ∧
    (∀ sref eref : ℕ × Bool,
      idxLookup ix site.start.node = some sref →
      idxLookup ix site.end_.node = some eref →
      sref.1 + (g.nodeSeq site.start.node).length ≤ eref.1 →
      eref.1 ≤ ix.seq.length →
      1 ≤ sref.1 + (g.nodeSeq site.start.node).length →
      locus.genotypes ≠ [] →
      (∀ gt ∈ locus.genotypes, gt.alleles.length = 2 ∧
        ∀ aidx ∈ gt.alleles, aidx < locus.alleles.length) →
      ∃ v : VariantE, locus_to_variant g site ix locus = some [v]) := by
  constructor
  · intro hor
    unfold locus_to_variant
    rw [if_neg h1, if_neg h2]
    rcases hor with h | h
    · rw [h]
    · rw [h]
      cases idxLookup ix site.start.node <;> rfl
  · intro sref eref hs he hle hseq hpos hg hgts
    unfold locus_to_variant
    rw [if_neg h1, if_neg h2, hs, he]
    dsimp only
    rw [if_pos hle, if_pos (le_trans hle hseq)]
    have hz : decide (sref.1 + (g.nodeSeq site.start.node).length = 0) = false := by
      rw [decide_eq_false_iff_not]
      omega
    rw [hz, Bool.and_false, if_neg (by simp)]
    rcases hgl : locus.genotypes with _ | ⟨best, rest⟩
    · exact absurd hgl hg
    · dsimp only
      have hbest := hgts best (by rw [hgl]; exact List.mem_cons_self _ _)
      rw [if_pos hbest.1]
      obtain ⟨x, y, hxy⟩ := List.length_eq_two.mp hbest.1
      have hx : x < locus.alleles.length := hbest.2 x (by rw [hxy]; simp)
      have hy : y < locus.alleles.length := hbest.2 y (by rw [hxy]; simp)
      have ha2alen : ∀ (anchor : List Char) (refString2 : List Char),
          ((((locus.alleles.map (allele_to_string g)).map
            (fun a => anchor ++ a)).enum.foldl (alleleFold locus.supports)
            ([refString2], [], [], 0, [])).2.2.1).length = locus.alleles.length := by
        intro anchor refString2
        rw [alleleFold_a2a_length]
        simp
      have hbound : ∀ (anchor : List Char) (refString2 : List Char),
          ∀ v ∈ ((((locus.alleles.map (allele_to_string g)).map
            (fun a => anchor ++ a)).enum.foldl (alleleFold locus.supports)
            ([refString2], [], [], 0, [])).2.2.1),
            v ≤ ((((locus.alleles.map (allele_to_string g)).map
              (fun a => anchor ++ a)).enum.foldl (alleleFold locus.supports)
              ([refString2], [], [], 0, [])).2.2.2.1) := by
        intro anchor refString2
        exact alleleFold_a2a_bound locus.supports _ _ (by simp)
      rw [hxy]
      rw [show ([x, y].getD 0 0) = x from rfl, show ([x, y].getD 1 0) = y from rfl]
      rw [List.getElem?_eq_getElem (by rw [ha2alen]; exact hx),
        List.getElem?_eq_getElem (by rw [ha2alen]; exact hy)]
      dsimp only
      obtain ⟨plv, hplv⟩ := plFold_success _ _ (hbound _ _) locus.genotypes
        (List.replicate _ none)
        (by
          intro gt hgt
          refine ⟨(hgts gt hgt).1, ?_⟩
          intro aidx haidx
          rw [ha2alen]
          exact (hgts gt hgt).2 aidx haidx)
      rw [hgl] at hplv
      rw [hplv]
      exact ⟨_, rfl⟩

/-- Witness for the amended C9: the emitter returns the empty list when the
end node is off the reference, and one record on the well-formed index. -/
theorem claim_C9_emitter_empty_vs_record_witness :
    locus_to_variant exGraph exSite exIxOff exLocusGood = some [] ∧
      ∃ v : VariantE, locus_to_variant exGraph exSite exIxGood exLocusGood = some [v] :=
  ⟨(claim_C9_emitter_empty_vs_record exGraph exSite exIxOff exLocusGood
      (by simp [exLocusGood]) (by simp [exLocusGood])).1 (Or.inr (by decide)),
    (claim_C9_emitter_empty_vs_record exGraph exSite exIxGood exLocusGood
      (by simp [exLocusGood]) (by simp [exLocusGood])).2 (0, false) (3, false)
      (by decide) (by decide) (by decide) (by decide) (by decide)
      (by simp [exLocusGood])
      (by
        intro gt hgt
        simp only [exLocusGood, List.mem_singleton] at hgt
        subst hgt
        exact ⟨rfl, by decide⟩)⟩

end VGGenotyper
